import Mathlib

/-!
Verification of the persisted-data consistency subsystem of the
ohtani_harada 64-task-matrix application.

The development shallowly embeds the TypeScript sources:
  * `src/src/utils/crud.ts`        — immutable CRUD operations on the entity graph
  * `src/src/utils/factories.ts`   — entity constructors
  * `src/src/utils/validation.ts`  — business-rule guards
  * `src/src/utils/storage.ts`     — serialize / deserialize / save (older variant)
  * `src/unnamed/part_009`         — storage.ts variant with priority, compression, backup
  * `src/unnamed/part_007`         — migrations.ts (VersionUtils, MigrationEngine)

Modelling conventions:
  * JS `Date` instants are milliseconds since the epoch (`Int`).  Functions that
    read the wall clock in JS (`new Date()`, `toISOString()`) take the clock
    value as an explicit parameter.
  * `generateId()` is a nondeterministic identifier source; constructors take
    the generated id as an explicit parameter.
  * Optional object fields are `Option`; a missing key is `none`.  JS string
    falsiness (`x || d`) is modelled explicitly.
  * Fallible functions return `Except`; the error value records the thrown
    error class and message.
-/

namespace Harada

/-- Task status enumeration, `TaskStatus` in `src/types.ts` (string enum with
values `pending`, `in-progress`, `completed`). -/
inductive TaskStatus where
  | pending
  | inProgress
  | completed
deriving DecidableEq

/-- The string value of a `TaskStatus` member. -/
def TaskStatus.str : TaskStatus → String
  | .pending => "pending"
  | .inProgress => "in-progress"
  | .completed => "completed"

/-- Inverse of `TaskStatus.str`: recognise a raw status string, as the
`validStatuses.includes(task.status)` membership test does. -/
def strToStatus (s : String) : Option TaskStatus :=
  if s = "pending" then some .pending
  else if s = "in-progress" then some .inProgress
  else if s = "completed" then some .completed
  else none

/-- Goal entity (`Goal` in `src/types.ts`); `createdDate` is a `Date`,
modelled as milliseconds since the epoch. -/
structure Goal where
  id : String
  title : String
  description : String
  createdDate : Int
deriving DecidableEq

/-- FocusArea entity (`FocusArea` in `src/types.ts`). -/
structure FocusArea where
  id : String
  title : String
  description : String
  goalId : String
deriving DecidableEq

/-- Task entity.  `priority` carries the raw priority string
(`low` / `medium` / `high`); it is an `Option` because the older storage
module (`src/src/utils/storage.ts`) constructs task objects without a
priority key, while the factory and the part_009 storage always set one.
`completedDate` is optional (`Date` as epoch milliseconds). -/
structure Task where
  id : String
  title : String
  description : String
  areaId : String
  status : TaskStatus
  priority : Option String
  completedDate : Option Int
deriving DecidableEq

/-- Aggregate root `MatrixData` from `src/types.ts`. -/
structure MatrixData where
  goal : Goal
  focusAreas : List FocusArea
  tasks : List Task
deriving DecidableEq

/-- Input for `createGoal`. -/
structure CreateGoalInput where
  title : String
  description : String
deriving DecidableEq

/-- Input for `createFocusArea`. -/
structure CreateFocusAreaInput where
  title : String
  description : String
  goalId : String
deriving DecidableEq

/-- Input for `createTask`; `priority` is optional (defaulted by the factory). -/
structure CreateTaskInput where
  title : String
  description : String
  areaId : String
  status : TaskStatus
  priority : Option String
deriving DecidableEq

/-- JS `x || d` for an optional string `x`: the default is taken when the key
is absent or the string is empty (falsy). -/
def jsOrElse (x : Option String) (d : String) : String :=
  match x with
  | some s => if s = "" then d else s
  | none => d

/-- factories.ts `createGoal`; the generated id and the clock reading are
explicit parameters. -/
def createGoal (input : CreateGoalInput) (newId : String) (now : Int) : Goal :=
  { id := newId, title := input.title, description := input.description, createdDate := now }

/-- factories.ts `createFocusArea`. -/
def createFocusArea (input : CreateFocusAreaInput) (newId : String) : FocusArea :=
  { id := newId, title := input.title, description := input.description, goalId := input.goalId }

/-- factories.ts `createTask`: `priority: input.priority || TaskPriority.MEDIUM`,
no `completedDate`. -/
def createTask (input : CreateTaskInput) (newId : String) : Task :=
  { id := newId, title := input.title, description := input.description,
    areaId := input.areaId, status := input.status,
    priority := some (jsOrElse input.priority "medium"), completedDate := none }

/-! ## CRUD module (`src/src/utils/crud.ts`)

Errors thrown by CRUD operations are plain `Error` objects; we model an
operation that can throw as returning `Except String`. -/

/-- Partial update object for `updateGoal` (`Partial<Pick<Goal, 'title' | 'description'>>`). -/
structure GoalUpdates where
  title : Option String
  description : Option String
deriving DecidableEq

/-- Partial update object for `updateFocusArea`. -/
structure AreaUpdates where
  title : Option String
  description : Option String
deriving DecidableEq

/-- Partial update object for `updateTask`
(`Partial<Pick<Task, 'title' | 'description' | 'status'>>`). -/
structure TaskUpdates where
  title : Option String
  description : Option String
  status : Option TaskStatus
deriving DecidableEq

/-- JS spread `{...goal, ...updates}` for goal updates: present keys override. -/
def applyGoalUpdates (g : Goal) (u : GoalUpdates) : Goal :=
  { g with title := u.title.getD g.title, description := u.description.getD g.description }

/-- JS spread for focus-area updates. -/
def applyAreaUpdates (a : FocusArea) (u : AreaUpdates) : FocusArea :=
  { a with title := u.title.getD a.title, description := u.description.getD a.description }

/-- Write a modified element back at a list index, as in the source pattern
`const copy = [...xs]; copy[i] = f(copy[i]); return copy`. -/
def listModify (f : α → α) : Nat → List α → List α
  | _, [] => []
  | 0, a :: as => f a :: as
  | i + 1, a :: as => a :: listModify f i as

/-- crud.ts `updateGoal`: throws if `goalId` does not match the current goal. -/
def updateGoal (matrixData : MatrixData) (goalId : String) (updates : GoalUpdates) :
    Except String MatrixData :=
  if matrixData.goal.id ≠ goalId then
    .error s!"Goal with id {goalId} not found"
  else
    .ok { matrixData with goal := applyGoalUpdates matrixData.goal updates }

/-- crud.ts `updateFocusArea`: `findIndex` then copy-and-set. -/
def updateFocusArea (matrixData : MatrixData) (areaId : String) (updates : AreaUpdates) :
    Except String MatrixData :=
  match matrixData.focusAreas.findIdx? (fun area => area.id = areaId) with
  | none => .error s!"Focus area with id {areaId} not found"
  | some i =>
      .ok { matrixData with
            focusAreas := listModify (fun a => applyAreaUpdates a updates) i matrixData.focusAreas }

/-- crud.ts `addFocusArea`: total, appends the freshly created area. -/
def addFocusArea (matrixData : MatrixData) (input : CreateFocusAreaInput) (newId : String) :
    MatrixData :=
  { matrixData with focusAreas := matrixData.focusAreas ++ [createFocusArea input newId] }

/-- crud.ts `deleteFocusArea`: throws when no area has the id; otherwise removes
the area and filters out every task whose `areaId` matches (cascade). -/
def deleteFocusArea (matrixData : MatrixData) (areaId : String) : Except String MatrixData :=
  if ¬ matrixData.focusAreas.any (fun area => area.id = areaId) then
    .error s!"Focus area with id {areaId} not found"
  else
    .ok { matrixData with
          focusAreas := matrixData.focusAreas.filter (fun area => area.id ≠ areaId),
          tasks := matrixData.tasks.filter (fun task => task.areaId ≠ areaId) }

/-- crud.ts `addTask`: throws when the target focus area does not exist,
otherwise appends the freshly created task. -/
def addTask (matrixData : MatrixData) (input : CreateTaskInput) (newId : String) :
    Except String MatrixData :=
  if ¬ matrixData.focusAreas.any (fun area => area.id = input.areaId) then
    .error s!"Focus area with id {input.areaId} not found"
  else
    .ok { matrixData with tasks := matrixData.tasks ++ [createTask input newId] }

/-- The per-task body of crud.ts `updateTask`: spread the updates, then
  * if `updates.status === COMPLETED && !existingTask.completedDate`, stamp
    `completedDate` with the clock;
  * if `existingTask.status === COMPLETED && updates.status !== COMPLETED`
    (which also holds when `updates.status` is absent), clear `completedDate`. -/
def updateTaskObj (existingTask : Task) (updates : TaskUpdates) (now : Int) : Task :=
  let updatedTask : Task :=
    { existingTask with
      title := updates.title.getD existingTask.title,
      description := updates.description.getD existingTask.description,
      status := updates.status.getD existingTask.status }
  let updatedTask :=
    if updates.status = some .completed ∧ existingTask.completedDate = none then
      { updatedTask with completedDate := some now }
    else updatedTask
  if existingTask.status = .completed ∧ updates.status ≠ some .completed then
    { updatedTask with completedDate := none }
  else updatedTask

/-- crud.ts `updateTask`: `findIndex`, throw when absent, else copy-and-set the
updated task object. -/
def updateTask (matrixData : MatrixData) (taskId : String) (updates : TaskUpdates) (now : Int) :
    Except String MatrixData :=
  match matrixData.tasks.findIdx? (fun task => task.id = taskId) with
  | none => .error s!"Task with id {taskId} not found"
  | some i =>
      .ok { matrixData with
            tasks := listModify (fun t => updateTaskObj t updates now) i matrixData.tasks }

/-- crud.ts `updateTaskStatus`: convenience wrapper passing only a status. -/
def updateTaskStatus (matrixData : MatrixData) (taskId : String) (status : TaskStatus)
    (now : Int) : Except String MatrixData :=
  updateTask matrixData taskId { title := none, description := none, status := some status } now

/-- crud.ts `deleteTask`: throws when no task has the id, else filters it out. -/
def deleteTask (matrixData : MatrixData) (taskId : String) : Except String MatrixData :=
  if ¬ matrixData.tasks.any (fun task => task.id = taskId) then
    .error s!"Task with id {taskId} not found"
  else
    .ok { matrixData with tasks := matrixData.tasks.filter (fun task => task.id ≠ taskId) }

/-! ## Validation module (`src/src/utils/validation.ts`), addition guards -/

/-- Validation result record `{isValid, errors}`. -/
structure ValidationResult where
  isValid : Bool
  errors : List String
deriving DecidableEq

/-- `HARADA_METHOD_LIMITS.MAX_FOCUS_AREAS`. -/
def MAX_FOCUS_AREAS : Nat := 8

/-- `HARADA_METHOD_LIMITS.MAX_TASKS_PER_AREA`. -/
def MAX_TASKS_PER_AREA : Nat := 8

/-- `HARADA_METHOD_LIMITS.MAX_TOTAL_TASKS`. -/
def MAX_TOTAL_TASKS : Nat := 64

/-- validation.ts `validateFocusAreaAddition`. -/
def validateFocusAreaAddition (matrixData : MatrixData) : ValidationResult :=
  let errors :=
    if matrixData.focusAreas.length ≥ MAX_FOCUS_AREAS then
      ["Cannot add more than 8 focus areas (Harada Method limit)"]
    else []
  { isValid := errors.isEmpty, errors := errors }

/-- validation.ts `validateTaskAddition`: per-area count guard, then total guard;
errors accumulate and `isValid` is `errors.length === 0`. -/
def validateTaskAddition (matrixData : MatrixData) (areaId : String) : ValidationResult :=
  let tasksInArea := (matrixData.tasks.filter (fun task => task.areaId = areaId)).length
  let errors1 :=
    if tasksInArea ≥ MAX_TASKS_PER_AREA then
      ["Cannot add more than 8 tasks per focus area (Harada Method limit)"]
    else []
  let totalTasks := matrixData.tasks.length
  let errors :=
    errors1 ++
      (if totalTasks ≥ MAX_TOTAL_TASKS then
        ["Cannot add more than 64 total tasks (Harada Method limit)"]
      else [])
  { isValid := errors.isEmpty, errors := errors }

/-- The completed-date invariant of the spec: `completedDate` is present iff the
task's status is Completed, for every task of the matrix. -/
def completedInvariant (m : MatrixData) : Prop :=
  ∀ t ∈ m.tasks, t.status = TaskStatus.completed ↔ t.completedDate.isSome

instance (m : MatrixData) : Decidable (completedInvariant m) := by
  unfold completedInvariant; infer_instance

/-! ## Raw stored data

`validateStoredData` receives an `any` payload (the result of `JSON.parse`, or
the in-memory object on a direct `deserialize(serialize(m))` round trip).  We
model payloads that have the overall object/array shape the code's structural
checks test for; a date-position value is represented by the outcome of
`new Date(value)`: `valid t` for a value parsing to the instant `t`
(a parseable string, or a live `Date` object on the direct round trip), and
`invalid s` for a string `s` that does not parse.  JS truthiness of the raw
value: a parseable date value is truthy; an unparseable string is truthy iff
nonempty. -/

/-- A raw value sitting in a date position of a stored payload, classified by
its `new Date(...)` parse outcome. -/
inductive RawDate where
  | valid (t : Int)
  | invalid (s : String)
deriving DecidableEq

/-- JS truthiness of the raw value in the date position (used by the
`if (task.completedDate)` guard). -/
def RawDate.truthy : RawDate → Bool
  | .valid _ => true
  | .invalid s => s ≠ ""

/-- Raw goal record of a stored payload. -/
structure RawGoal where
  id : String
  title : String
  description : String
  createdDate : RawDate
deriving DecidableEq

/-- Raw focus-area record of a stored payload. -/
structure RawArea where
  id : String
  title : String
  description : String
  goalId : String
deriving DecidableEq

/-- Raw task record of a stored payload; `status` and `priority` are raw
strings (`priority` / `completedDate` keys may be absent). -/
structure RawTask where
  id : String
  title : String
  description : String
  areaId : String
  status : String
  priority : Option String
  completedDate : Option RawDate
deriving DecidableEq

/-- Raw matrix payload. -/
structure RawMatrix where
  goal : RawGoal
  focusAreas : List RawArea
  tasks : List RawTask
deriving DecidableEq

/-- Persistence envelope `StoredMatrixData {version, data, lastSaved}`; at
runtime `data` is a raw payload. -/
structure StoredRaw where
  version : String
  data : RawMatrix
  lastSaved : String
deriving DecidableEq

/-- The storage error taxonomy: `StorageCorruptionError` and
`StorageQuotaExceededError` are the `StorageError` subclasses; `generic`
stands for a plain `Error` escaping from a called module. -/
inductive StorageErr where
  | corruption (msg : String)
  | quota
  | generic (msg : String)
deriving DecidableEq

/-- A focus area viewed as its raw runtime object. -/
def toRawArea (a : FocusArea) : RawArea :=
  { id := a.id, title := a.title, description := a.description, goalId := a.goalId }

/-- A task viewed as its raw runtime object (a live `Date` in the completed
position parses to itself). -/
def toRawTask (t : Task) : RawTask :=
  { id := t.id, title := t.title, description := t.description, areaId := t.areaId,
    status := t.status.str, priority := t.priority,
    completedDate := t.completedDate.map .valid }

/-- The in-memory `MatrixData` viewed as the raw payload it is at runtime
(the identity embedding: `serializeMatrixData` stores the object itself). -/
def toRaw (m : MatrixData) : RawMatrix :=
  { goal := { id := m.goal.id, title := m.goal.title, description := m.goal.description,
              createdDate := .valid m.goal.createdDate },
    focusAreas := m.focusAreas.map toRawArea,
    tasks := m.tasks.map toRawTask }

/-- storage.ts `STORAGE_VERSION`. -/
def STORAGE_VERSION : String := "1.0.0"

/-- storage.ts `parseDate`: `new Date(dateString)` plus the `isValidDate`
check; an unparseable value raises `StorageCorruptionError`. -/
def parseDate : RawDate → Except StorageErr Int
  | .valid t => .ok t
  | .invalid s => .error (.corruption s!"Invalid date string: {s}")

/-- The `validStatuses.includes(task.status)` check together with the cast
`task.status as TaskStatus`: both storage variants accept exactly the three
enum values.  `String(x || '')` is the identity on strings (the only falsy
string is `''`, and `String('')` is `''`), so the id/title/description/areaId
fields are carried over unchanged. -/
def validateTasks (idx : Nat) : List RawTask → Except StorageErr (List Task)
  | [] => .ok []
  | task :: rest => do
      let st ←
        match strToStatus task.status with
        | none => .error (.corruption s!"Invalid task status at index {idx}: {task.status}")
        | some st => .ok st
      let parsedTask : Task :=
        { id := task.id, title := task.title, description := task.description,
          areaId := task.areaId, status := st, priority := none, completedDate := none }
      let parsedTask ←
        match task.completedDate with
        | some cd =>
            if cd.truthy then do
              let t ← parseDate cd
              pure { parsedTask with completedDate := some t }
            else pure parsedTask
        | none => pure parsedTask
      let restParsed ← validateTasks (idx + 1) rest
      pure (parsedTask :: restParsed)

/-- `src/src/utils/storage.ts` `validateStoredData`: parse the goal's
`createdDate`, carry the focus areas over, validate each task's status and
optional `completedDate`.  This older variant builds the parsed task without
a `priority` key. -/
def validateStoredData (data : RawMatrix) : Except StorageErr MatrixData := do
  let createdDate ← parseDate data.goal.createdDate
  let goal : Goal :=
    { id := data.goal.id, title := data.goal.title,
      description := data.goal.description, createdDate := createdDate }
  let focusAreas : List FocusArea := data.focusAreas.map (fun area =>
    { id := area.id, title := area.title, description := area.description,
      goalId := area.goalId })
  let tasks ← validateTasks 0 data.tasks
  pure { goal := goal, focusAreas := focusAreas, tasks := tasks }

/-- Task validation of the part_009 storage variant: identical to
`validateTasks` except that the parsed task carries
`priority: (task.priority as TaskPriority) || TaskPriority.MEDIUM`. -/
def validateTasksFull (idx : Nat) : List RawTask → Except StorageErr (List Task)
  | [] => .ok []
  | task :: rest => do
      let st ←
        match strToStatus task.status with
        | none => .error (.corruption s!"Invalid task status at index {idx}: {task.status}")
        | some st => .ok st
      let parsedTask : Task :=
        { id := task.id, title := task.title, description := task.description,
          areaId := task.areaId, status := st,
          priority := some (jsOrElse task.priority "medium"), completedDate := none }
      let parsedTask ←
        match task.completedDate with
        | some cd =>
            if cd.truthy then do
              let t ← parseDate cd
              pure { parsedTask with completedDate := some t }
            else pure parsedTask
        | none => pure parsedTask
      let restParsed ← validateTasksFull (idx + 1) rest
      pure (parsedTask :: restParsed)

/-- part_009 `validateStoredData` (the storage variant that keeps priority). -/
def validateStoredDataFull (data : RawMatrix) : Except StorageErr MatrixData := do
  let createdDate ← parseDate data.goal.createdDate
  let goal : Goal :=
    { id := data.goal.id, title := data.goal.title,
      description := data.goal.description, createdDate := createdDate }
  let focusAreas : List FocusArea := data.focusAreas.map (fun area =>
    { id := area.id, title := area.title, description := area.description,
      goalId := area.goalId })
  let tasks ← validateTasksFull 0 data.tasks
  pure { goal := goal, focusAreas := focusAreas, tasks := tasks }

/-- storage.ts `serializeMatrixData`: wrap the matrix in the envelope with the
current schema version and a fresh `toISOString()` timestamp (taken as the
parameter `nowIso`). -/
def serializeMatrixData (matrixData : MatrixData) (nowIso : String) : StoredRaw :=
  { version := STORAGE_VERSION, data := toRaw matrixData, lastSaved := nowIso }

/-! ## Migration engine (`src/unnamed/part_007`) -/

/-- `VersionUtils.parse` result. -/
structure ParsedVersion where
  major : Nat
  minor : Nat
  patch : Nat
deriving DecidableEq

/-- `version.split('.')` over the character list (structural recursion, so
that concrete version strings evaluate inside the kernel). -/
def splitOnDot : List Char → List (List Char)
  | [] => [[]]
  | c :: rest =>
      let r := splitOnDot rest
      if c = '.' then [] :: r
      else
        match r with
        | [] => [[c]]
        | x :: xs => (c :: x) :: xs

/-- `Number(part) || 0` for one dot-separated component: a digit string maps
to its value; a missing, empty or non-numeric part gives `0` (`Number` of
such a part is `NaN` or the part is `undefined`, and `NaN || 0` is `0`). -/
def parsePartChars (cs : List Char) : Nat :=
  if cs ≠ [] ∧ cs.all Char.isDigit then
    cs.foldl (fun acc c => acc * 10 + (c.toNat - 48)) 0
  else 0

/-- `VersionUtils.parse`: split on `.` and convert each component. -/
def parseVersion (version : String) : ParsedVersion :=
  let parts := splitOnDot version.data
  { major := parsePartChars (parts.getD 0 []),
    minor := parsePartChars (parts.getD 1 []),
    patch := parsePartChars (parts.getD 2 []) }

/-- `VersionUtils.compare`: three-component ordinal comparison returning
`-1` / `0` / `1`. -/
def compareVersions (v1 v2 : String) : Int :=
  let p1 := parseVersion v1
  let p2 := parseVersion v2
  if p1.major ≠ p2.major then (if p1.major > p2.major then 1 else -1)
  else if p1.minor ≠ p2.minor then (if p1.minor > p2.minor then 1 else -1)
  else if p1.patch ≠ p2.patch then (if p1.patch > p2.patch then 1 else -1)
  else 0

/-- `VersionUtils.isLessThan`. -/
def isLessThan (v1 v2 : String) : Bool := compareVersions v1 v2 < 0

/-- `VersionUtils.isGreaterThan`. -/
def isGreaterThan (v1 v2 : String) : Bool := compareVersions v1 v2 > 0

/-- `VersionUtils.isEqual`. -/
def isEqualVersion (v1 v2 : String) : Bool := compareVersions v1 v2 = 0

/-- `MigrationEngine.getNextVersion`: increment patch below 1000, else roll
into minor, else into major. -/
def getNextVersion (version : String) : String :=
  let parsed := parseVersion version
  let ma := parsed.major
  let mi := parsed.minor
  let pa := parsed.patch
  if pa < 999 then
    let np := pa + 1
    s!"{ma}.{mi}.{np}"
  else if mi < 999 then
    let nm := mi + 1
    s!"{ma}.{nm}.0"
  else
    let na := ma + 1
    s!"{na}.0.0"

/-- The observable behaviour of one call of a registered migration function
`migrate(data)` on the object its argument references: the call leaves the
argument object holding `post` (JS functions may mutate their argument in
place), and either returns an object holding `ret` (`retIsArg` records whether
the returned reference is the argument itself) or throws with message `msg`
(in which case the argument still holds `post`). -/
inductive MigOutcome where
  | ok (post ret : RawMatrix) (retIsArg : Bool)
  | thrown (post : RawMatrix) (msg : String)

/-- A registered migration `{fromVersion, toVersion, description, migrate}`. -/
structure Migration where
  fromVersion : String
  toVersion : String
  description : String
  run : RawMatrix → MigOutcome

/-- The `"from->to"` registry key. -/
def migKey (fromV toV : String) : String := fromV ++ "->" ++ toV

/-- The migration registry: a `Map<string, Migration>`. -/
structure MigrationEngine where
  migrations : List (String × Migration)

/-- `MigrationEngine.register`: `Map.set` keyed by `"from->to"` (overwrites an
existing entry for the same key). -/
def MigrationEngine.register (e : MigrationEngine) (m : Migration) : MigrationEngine :=
  let key := migKey m.fromVersion m.toVersion
  ⟨(key, m) :: e.migrations.filter (fun p => p.1 ≠ key)⟩

/-- `Map.get` on the registry. -/
def MigrationEngine.getMig (e : MigrationEngine) (key : String) : Option Migration :=
  (e.migrations.find? (fun p => p.1 = key)).map Prod.snd

/-- `MigrationEngine.getMigrationPath`: walk from `fromV` towards `toV`
through the sequential `cur -> getNextVersion cur` keys; a missing link
throws.  The JS loop has no termination guarantee (a registered migration may
point anywhere), so the embedding carries explicit fuel; exhausted fuel is
reported like a missing link. -/
def getMigrationPath (e : MigrationEngine) (fromV toV : String) :
    Nat → Except String (List Migration)
  | 0 => .error s!"No migration found from {fromV} to next version"
  | fuel + 1 =>
      if isLessThan fromV toV then
        match e.getMig (migKey fromV (getNextVersion fromV)) with
        | none => .error s!"No migration found from {fromV} to next version"
        | some migration =>
            (getMigrationPath e migration.toVersion toV fuel).map (migration :: ·)
      else
        .ok []

/-- `MigrationResult`. -/
structure MigrationResult where
  success : Bool
  migratedFrom : Option String
  migratedTo : Option String
  appliedMigrations : List Migration
  errors : List String

/-- Outcome of the sequential application loop of `MigrationEngine.migrate`. -/
inductive ApplyOutcome where
  | ok (finalData fieldVal : RawMatrix) (applied : List Migration)
  | failed (errMsg : String) (fieldVal : RawMatrix) (applied : List Migration)

/-- The `for (const migration of migrations)` loop of `migrate`: thread the
value `cur` referenced by the local `migratedData`, the value `fieldVal` of
the object the envelope's `data` field references, and whether the two are
still the same object (`aliased`; they are when the loop starts, because the
loop seeds `migratedData = storedData.data`). -/
def applyMigrations : List Migration → RawMatrix → RawMatrix → Bool → List Migration →
    ApplyOutcome
  | [], cur, fieldVal, _, applied => .ok cur fieldVal applied
  | migration :: rest, cur, fieldVal, aliased, applied =>
      match migration.run cur with
      | .ok post ret retIsArg =>
          applyMigrations rest ret (if aliased then post else fieldVal)
            (aliased && retIsArg) (applied ++ [migration])
      | .thrown post msg =>
          let fv := migration.fromVersion
          let tv := migration.toVersion
          .failed s!"Migration {fv}->{tv} failed: {msg}"
            (if aliased then post else fieldVal) applied

/-- An empty (initial) migration result. -/
def emptyResult : MigrationResult :=
  { success := false, migratedFrom := none, migratedTo := none,
    appliedMigrations := [], errors := [] }

/-- `MigrationEngine.migrate`: no-op success at the current version; explicit
failure for future versions; otherwise compute the path and apply it,
assigning `storedData.data` and `storedData.version` only on full success.
Returns the result together with the envelope as the caller observes it after
the call. -/
def MigrationEngine.migrate (e : MigrationEngine) (storedData : StoredRaw) (fuel : Nat) :
    MigrationResult × StoredRaw :=
  let currentVersion := storedData.version
  if isEqualVersion currentVersion STORAGE_VERSION then
    ({ emptyResult with success := true }, storedData)
  else if isGreaterThan currentVersion STORAGE_VERSION then
    ({ emptyResult with
       errors := [s!"Data version {currentVersion} is newer than supported version {STORAGE_VERSION}"] },
     storedData)
  else
    match getMigrationPath e currentVersion STORAGE_VERSION fuel with
    | .error msg =>
        -- the exception from getMigrationPath lands in the outer catch:
        -- `result.errors.push(`Migration failed: ${error}`)`
        ({ emptyResult with errors := [s!"Migration failed: {msg}"] }, storedData)
    | .ok migrations =>
        match applyMigrations migrations storedData.data storedData.data true [] with
        | .failed msg fieldVal applied =>
            ({ emptyResult with errors := [msg], appliedMigrations := applied },
             { storedData with data := fieldVal })
        | .ok finalData _ applied =>
            ({ emptyResult with
               success := true,
               appliedMigrations := applied,
               migratedFrom := some currentVersion,
               migratedTo := some STORAGE_VERSION },
             { storedData with data := finalData, version := STORAGE_VERSION })

/-- part_007 `needsMigration`. -/
def needsMigration (storedData : StoredRaw) : Bool :=
  isLessThan storedData.version STORAGE_VERSION

/-- part_007 `createBackwardCompatibilityLayer`: its checks (`data` is an
object with `goal`, `focusAreas`, `tasks`) hold for every `RawMatrix` by
construction, so the layer is the identity here. -/
def createBackwardCompatibilityLayer (data : RawMatrix) : Except StorageErr RawMatrix :=
  .ok data

/-- The global `migrationEngine` instance: its registry is empty (the
`exampleMigration` registration is commented out in the source). -/
def migrationEngine : MigrationEngine := ⟨[]⟩

/-- Fuel used when the storage module invokes the engine (irrelevant for every
payload considered here: either no migration is needed or the first lookup
already fails). -/
def storageFuel : Nat := 1000

/-- storage.ts `deserializeMatrixData`: falsy version field is corruption;
migrate when the stored version is behind (a failed migration surfaces as the
plain `Error` of `validateMigrationResult`); then the backward-compatibility
layer and `validateStoredData`. -/
def deserializeMatrixData (storedData : StoredRaw) : Except StorageErr MatrixData := do
  if storedData.version = "" then
    throw (.corruption "Missing version information")
  let storedData ←
    if needsMigration storedData then do
      let (migrationResult, storedData2) := migrationEngine.migrate storedData storageFuel
      if migrationResult.success then
        pure storedData2
      else
        throw (.generic ("Migration failed: " ++ String.intercalate ", " migrationResult.errors))
    else pure storedData
  let compatibleData ← createBackwardCompatibilityLayer storedData.data
  validateStoredData compatibleData

/-! ## JSON serialization and the save path

`JSON.stringify` over the envelope.  Key order follows the declaration order
of the object literals in the source; `Date` objects render through
`toISOString`, a `priority` / `completedDate` key is emitted only when
present.  `.length` on the result is the JS string length (for the ASCII
output of the stringifier this equals the codepoint count used here). -/

/-- Hex digit (uppercase alphabet, used by percent-encoding). -/
def hexDigU (n : Nat) : Char := "0123456789ABCDEF".data.getD n '0'

/-- Hex digit (lowercase alphabet, used by JSON `\u` escapes). -/
def hexDigL (n : Nat) : Char := "0123456789abcdef".data.getD n '0'

/-- Fold a per-character expansion over a string. -/
def strConcatMap (f : Char → String) (s : String) : String :=
  s.data.foldl (fun acc c => acc ++ f c) ""

/-- JSON escaping of one character, as `JSON.stringify` performs it. -/
def escChar (c : Char) : String :=
  if c = '"' then "\\\""
  else if c = '\\' then "\\\\"
  else if c = '\n' then "\\n"
  else if c = '\r' then "\\r"
  else if c = '\t' then "\\t"
  else if c.toNat = 8 then "\\b"
  else if c.toNat = 12 then "\\f"
  else if c.toNat < 32 then
    "\\u00" ++ String.mk [hexDigL (c.toNat / 16), hexDigL (c.toNat % 16)]
  else String.mk [c]

/-- A JSON string literal with escaping. -/
def jsonStr (s : String) : String := "\"" ++ strConcatMap escChar s ++ "\""

/-- Zero-padded two-digit decimal. -/
def pad2 (n : Nat) : String := if n < 10 then "0" ++ toString n else toString n

/-- Zero-padded three-digit decimal. -/
def pad3 (n : Nat) : String :=
  if n < 10 then "00" ++ toString n else if n < 100 then "0" ++ toString n else toString n

/-- Zero-padded four-digit decimal rendering of the year. -/
def pad4 (i : Int) : String :=
  if i < 0 then "-" ++ toString (-i)
  else
    let n := i.toNat
    if n < 10 then "000" ++ toString n
    else if n < 100 then "00" ++ toString n
    else if n < 1000 then "0" ++ toString n
    else toString n

/-- `Date.prototype.toISOString` of an epoch-millisecond instant: civil date
via the standard days-from-epoch conversion, then `YYYY-MM-DDTHH:MM:SS.mmmZ`. -/
def isoOfTime (t : Int) : String :=
  let msOfDay := (t.emod 86400000).toNat
  let days := (t - t.emod 86400000) / 86400000
  let z := days + 719468
  let era := (if z ≥ 0 then z else z - 146096) / 146097
  let doe := (z - era * 146097).toNat
  let yoe := (doe - doe / 1460 + doe / 36524 - doe / 146096) / 365
  let y := era * 400 + (yoe : Int)
  let doy := doe - (365 * yoe + yoe / 4 - yoe / 100)
  let mp := (5 * doy + 2) / 153
  let d := doy - (153 * mp + 2) / 5 + 1
  let m := if mp < 10 then mp + 3 else mp - 9
  let year := y + (if m ≤ 2 then 1 else 0)
  let hh := msOfDay / 3600000
  let mi := msOfDay / 60000 % 60
  let ss := msOfDay / 1000 % 60
  let ms := msOfDay % 1000
  pad4 year ++ "-" ++ pad2 m ++ "-" ++ pad2 d ++ "T" ++
    pad2 hh ++ ":" ++ pad2 mi ++ ":" ++ pad2 ss ++ "." ++ pad3 ms ++ "Z"

/-- `JSON.stringify` of a date-position value: a `Date` object (or the string
it was parsed from) renders through `toISOString`; an unparseable string is a
plain string value. -/
def rawDateJson : RawDate → String
  | .valid t => jsonStr (isoOfTime t)
  | .invalid s => jsonStr s

/-- `JSON.stringify` of the goal record. -/
def goalJson (g : RawGoal) : String :=
  "\x7b\"id\":" ++ jsonStr g.id ++ ",\"title\":" ++ jsonStr g.title ++
    ",\"description\":" ++ jsonStr g.description ++
    ",\"createdDate\":" ++ rawDateJson g.createdDate ++ "\x7d"

/-- `JSON.stringify` of a focus-area record. -/
def areaJson (a : RawArea) : String :=
  "\x7b\"id\":" ++ jsonStr a.id ++ ",\"title\":" ++ jsonStr a.title ++
    ",\"description\":" ++ jsonStr a.description ++
    ",\"goalId\":" ++ jsonStr a.goalId ++ "\x7d"

/-- `JSON.stringify` of a task record; the optional keys are emitted only when
present. -/
def taskJson (t : RawTask) : String :=
  "\x7b\"id\":" ++ jsonStr t.id ++ ",\"title\":" ++ jsonStr t.title ++
    ",\"description\":" ++ jsonStr t.description ++
    ",\"areaId\":" ++ jsonStr t.areaId ++
    ",\"status\":" ++ jsonStr t.status ++
    (match t.priority with
     | some p => ",\"priority\":" ++ jsonStr p
     | none => "") ++
    (match t.completedDate with
     | some cd => ",\"completedDate\":" ++ rawDateJson cd
     | none => "") ++ "\x7d"

/-- `JSON.stringify` of a matrix payload. -/
def matrixJson (d : RawMatrix) : String :=
  "\x7b\"goal\":" ++ goalJson d.goal ++
    ",\"focusAreas\":[" ++ String.intercalate "," (d.focusAreas.map areaJson) ++
    "],\"tasks\":[" ++ String.intercalate "," (d.tasks.map taskJson) ++ "]\x7d"

/-- `JSON.stringify(serializedData)` over the whole envelope. -/
def stringifyStored (sd : StoredRaw) : String :=
  "\x7b\"version\":" ++ jsonStr sd.version ++ ",\"data\":" ++ matrixJson sd.data ++
    ",\"lastSaved\":" ++ jsonStr sd.lastSaved ++ "\x7d"

/-- The key-value store behind `localStorage`. -/
def Store := List (String × String)

instance : DecidableEq Store := by unfold Store; infer_instance

/-- `localStorage.setItem`. -/
def setItem (store : Store) (k v : String) : Store :=
  (store.filter (fun p => p.1 ≠ k)) ++ [(k, v)]

/-- `src/src/utils/storage.ts` `saveMatrixData`: serialize, stringify, reject
with `StorageQuotaExceededError` when the JSON exceeds the 4 MB ceiling
(before any write), otherwise write the three keys.  The store is returned as
the caller observes it after the call.  (The browser's own quota failure on
`setItem` is environmental nondeterminism not modelled here; the store is
unbounded.) -/
def saveMatrixData (store : Store) (matrixData : MatrixData) (nowIso : String) :
    Except StorageErr Unit × Store :=
  let serializedData := serializeMatrixData matrixData nowIso
  let jsonString := stringifyStored serializedData
  if jsonString.length > 4 * 1024 * 1024 then
    (.error .quota, store)
  else
    let store := setItem store "ohtani-harada-matrix" jsonString
    let store := setItem store "ohtani-harada-version" STORAGE_VERSION
    let store := setItem store "ohtani-harada-last-saved" serializedData.lastSaved
    (.ok (), store)

/-- A character `encodeURIComponent` leaves unescaped. -/
def isUnreservedURI (c : Char) : Bool :=
  c.isAlpha || c.isDigit || c ∈ ['-', '_', '.', '!', '~', '*', '(', ')'] || c.toNat = 39

/-- UTF-8 bytes of a character (astral characters give four bytes, matching
`encodeURIComponent` on a surrogate pair). -/
def utf8Bytes (c : Char) : List Nat :=
  let n := c.toNat
  if n < 128 then [n]
  else if n < 2048 then [192 + n / 64, 128 + n % 64]
  else if n < 65536 then [224 + n / 4096, 128 + n / 64 % 64, 128 + n % 64]
  else [240 + n / 262144, 128 + n / 4096 % 64, 128 + n / 64 % 64, 128 + n % 64]

/-- Percent-encoding of one escaped character. -/
def pctEncode (c : Char) : String :=
  (utf8Bytes c).foldl (fun acc b => acc ++ "%" ++ String.mk [hexDigU (b / 16), hexDigU (b % 16)]) ""

/-- `encodeURIComponent`. -/
def encodeURIComponent (s : String) : String :=
  strConcatMap (fun c => if isUnreservedURI c then String.mk [c] else pctEncode c) s

/-- Base64 alphabet. -/
def b64Char (n : Nat) : Char :=
  "ABCDEFGHIJKLMNOPQRSTUVWXYZabcdefghijklmnopqrstuvwxyz0123456789+/".data.getD n 'A'

/-- Base64 encoding by three-character groups (with `=` padding). -/
def btoaGo : List Char → List Char
  | [] => []
  | [a] =>
      let n := a.toNat
      [b64Char (n / 4), b64Char (n % 4 * 16), '=', '=']
  | [a, b] =>
      let n := a.toNat * 256 + b.toNat
      [b64Char (n / 1024), b64Char (n / 16 % 64), b64Char (n % 16 * 4), '=']
  | a :: b :: c :: rest =>
      let n := a.toNat * 65536 + b.toNat * 256 + c.toNat
      b64Char (n / 262144) :: b64Char (n / 4096 % 64) :: b64Char (n / 64 % 64) ::
        b64Char (n % 64) :: btoaGo rest

/-- `btoa`: throws `InvalidCharacterError` on a code unit above `0xFF`. -/
def btoa (s : String) : Except String String :=
  if s.data.any (fun c => c.toNat > 255) then .error "InvalidCharacterError"
  else .ok (String.mk (btoaGo s.data))

/-- part_009 `compressData`: `btoa(encodeURIComponent(data))`, falling back to
the original string when the encoding throws. -/
def compressData (data : String) : String :=
  match btoa (encodeURIComponent data) with
  | .ok compressed => compressed
  | .error _ => data

/-- part_009 `saveMatrixData`: above 1 MB, try compression and keep it only if
it wins by more than 10% (the float comparison `c.length < len * 0.9` is
modelled exactly as `10 * c.length < 9 * len`; the two sides are far apart
whenever the branch is reached, see `compressData_length_ge`); then the 4 MB
quota gate before any write; then the three keys plus the compression flag. -/
def saveMatrixDataFull (store : Store) (matrixData : MatrixData) (nowIso : String) :
    Except StorageErr Unit × Store :=
  let serializedData := serializeMatrixData matrixData nowIso
  let jsonString0 := stringifyStored serializedData
  let p :=
    if jsonString0.length > 1024 * 1024 then
      let compressedString := compressData jsonString0
      if 10 * compressedString.length < 9 * jsonString0.length then (compressedString, true)
      else (jsonString0, false)
    else (jsonString0, false)
  let jsonString := p.1
  let compressed := p.2
  if jsonString.length > 4 * 1024 * 1024 then
    (.error .quota, store)
  else
    let store := setItem store "ohtani-harada-matrix" jsonString
    let store := setItem store "ohtani-harada-version" STORAGE_VERSION
    let store := setItem store "ohtani-harada-last-saved" serializedData.lastSaved
    let store := setItem store "ohtani-harada-matrix_compressed"
      (if compressed then "true" else "false")
    (.ok (), store)

/-- part_009 `deserializeMatrixData` (keeps task priority). -/
def deserializeMatrixDataFull (storedData : StoredRaw) : Except StorageErr MatrixData := do
  if storedData.version = "" then
    throw (.corruption "Missing version information")
  let storedData ←
    if needsMigration storedData then do
      let (migrationResult, storedData2) := migrationEngine.migrate storedData storageFuel
      if migrationResult.success then
        pure storedData2
      else
        throw (.generic ("Migration failed: " ++ String.intercalate ", " migrationResult.errors))
    else pure storedData
  let compatibleData ← createBackwardCompatibilityLayer storedData.data
  validateStoredDataFull compatibleData

/-! ## Heap-level instrumentation of the CRUD module

The CRUD operations promise to leave the caller's object graph untouched and
return a fresh graph.  To make that checkable, the operations are re-traced
here over an explicit object heap: every JS object or array is a heap cell
addressed by a reference; allocation (`{...}` literals, array spreads,
`filter` results) appends a fresh cell; the only in-place element writes in
the source (`updatedFocusAreas[areaIndex] = ...`, `updatedTasks[taskIndex] =
...`) become `hset` on the freshly allocated copy.  Entity records hold only
primitive fields, so they are stored whole. -/

/-- A heap cell: an entity object, an array of references, or the matrix
record itself. -/
inductive HObj where
  | goal (g : Goal)
  | area (a : FocusArea)
  | task (t : Task)
  | arr (elems : List Nat)
  | matrix (goalRef areasRef tasksRef : Nat)
deriving DecidableEq

/-- The heap: cells addressed by their index. -/
abbrev Heap := List HObj

/-- Number of allocated cells. -/
def Heap.size (h : Heap) : Nat := List.length h

/-- Dereference. -/
def hget (h : Heap) (r : Nat) : Option HObj := List.get? h r

/-- Allocate a fresh cell, returning the extended heap and the new reference. -/
def halloc (h : Heap) (o : HObj) : Heap × Nat := (h ++ [o], h.size)

/-- Overwrite the cell at `r` (used only on freshly allocated arrays). -/
def hset (h : Heap) (r : Nat) (o : HObj) : Heap := List.set h r o

/-- Read the three references of a matrix cell. -/
def readMatrix (h : Heap) (r : Nat) : Option (Nat × Nat × Nat) :=
  match hget h r with
  | some (.matrix g a t) => some (g, a, t)
  | _ => none

/-- Read an array cell. -/
def readArr (h : Heap) (r : Nat) : Option (List Nat) :=
  match hget h r with
  | some (.arr elems) => some elems
  | _ => none

/-- `findIndex` over an array of focus-area objects, also returning the found
object's value. -/
def findArea (h : Heap) (areaId : String) : List Nat → Nat → Option (Nat × FocusArea)
  | [], _ => none
  | r :: rest, i =>
      match hget h r with
      | some (.area a) => if a.id = areaId then some (i, a) else findArea h areaId rest (i + 1)
      | _ => findArea h areaId rest (i + 1)

/-- `findIndex` over an array of task objects, also returning the found
object's value. -/
def findTaskRef (h : Heap) (taskId : String) : List Nat → Nat → Option (Nat × Task)
  | [], _ => none
  | r :: rest, i =>
      match hget h r with
      | some (.task t) => if t.id = taskId then some (i, t) else findTaskRef h taskId rest (i + 1)
      | _ => findTaskRef h taskId rest (i + 1)

/-- `some(area => area.id === areaId)` over an array of references. -/
def anyAreaRef (h : Heap) (elems : List Nat) (areaId : String) : Bool :=
  elems.any (fun r =>
    match hget h r with
    | some (.area a) => a.id = areaId
    | _ => false)

/-- `some(task => task.id === taskId)`. -/
def anyTaskRef (h : Heap) (elems : List Nat) (taskId : String) : Bool :=
  elems.any (fun r =>
    match hget h r with
    | some (.task t) => t.id = taskId
    | _ => false)

/-- `filter(area => area.id !== areaId)` (a non-area cell reads as `undefined
!== areaId`, i.e. kept). -/
def filterAreasNe (h : Heap) (elems : List Nat) (areaId : String) : List Nat :=
  elems.filter (fun r =>
    match hget h r with
    | some (.area a) => a.id ≠ areaId
    | _ => true)

/-- `filter(task => task.areaId !== areaId)`. -/
def filterTasksAreaNe (h : Heap) (elems : List Nat) (areaId : String) : List Nat :=
  elems.filter (fun r =>
    match hget h r with
    | some (.task t) => t.areaId ≠ areaId
    | _ => true)

/-- `filter(task => task.id !== taskId)`. -/
def filterTasksIdNe (h : Heap) (elems : List Nat) (taskId : String) : List Nat :=
  elems.filter (fun r =>
    match hget h r with
    | some (.task t) => t.id ≠ taskId
    | _ => true)

/-- Heap-level `updateGoal`: read, check the id, allocate the updated goal and
a new matrix cell. -/
def updateGoalH (h : Heap) (mRef : Nat) (goalId : String) (u : GoalUpdates) :
    Heap × Except String Nat :=
  match readMatrix h mRef with
  | none => (h, .error "TypeError")
  | some (gR, faR, tR) =>
      match hget h gR with
      | some (.goal g) =>
          if g.id ≠ goalId then (h, .error s!"Goal with id {goalId} not found")
          else
            let p1 := halloc h (.goal (applyGoalUpdates g u))
            let p2 := halloc p1.1 (.matrix p1.2 faR tR)
            (p2.1, .ok p2.2)
      | _ => (h, .error "TypeError")

/-- Heap-level `updateFocusArea`: `findIndex`, copy the array, allocate the
updated area, write it into the copy, allocate a new matrix cell. -/
def updateFocusAreaH (h : Heap) (mRef : Nat) (areaId : String) (u : AreaUpdates) :
    Heap × Except String Nat :=
  match readMatrix h mRef with
  | none => (h, .error "TypeError")
  | some (gR, faR, tR) =>
      match readArr h faR with
      | none => (h, .error "TypeError")
      | some elems =>
          match findArea h areaId elems 0 with
          | none => (h, .error s!"Focus area with id {areaId} not found")
          | some (i, a) =>
              let p1 := halloc h (.arr elems)
              let p2 := halloc p1.1 (.area (applyAreaUpdates a u))
              let h3 := hset p2.1 p1.2 (.arr (elems.set i p2.2))
              let p4 := halloc h3 (.matrix gR p1.2 tR)
              (p4.1, .ok p4.2)

/-- Heap-level `addFocusArea`: allocate the created area, the spread copy of
the array with the new reference appended, and a new matrix cell. -/
def addFocusAreaH (h : Heap) (mRef : Nat) (input : CreateFocusAreaInput) (newId : String) :
    Heap × Except String Nat :=
  match readMatrix h mRef with
  | none => (h, .error "TypeError")
  | some (gR, faR, tR) =>
      match readArr h faR with
      | none => (h, .error "TypeError")
      | some elems =>
          let p1 := halloc h (.area (createFocusArea input newId))
          let p2 := halloc p1.1 (.arr (elems ++ [p1.2]))
          let p3 := halloc p2.1 (.matrix gR p2.2 tR)
          (p3.1, .ok p3.2)

/-- Heap-level `deleteFocusArea`: existence check, then two filtered array
copies and a new matrix cell. -/
def deleteFocusAreaH (h : Heap) (mRef : Nat) (areaId : String) :
    Heap × Except String Nat :=
  match readMatrix h mRef with
  | none => (h, .error "TypeError")
  | some (gR, faR, tR) =>
      match readArr h faR, readArr h tR with
      | some elems, some elemsT =>
          if ¬ anyAreaRef h elems areaId then
            (h, .error s!"Focus area with id {areaId} not found")
          else
            let p1 := halloc h (.arr (filterAreasNe h elems areaId))
            let p2 := halloc p1.1 (.arr (filterTasksAreaNe h elemsT areaId))
            let p3 := halloc p2.1 (.matrix gR p1.2 p2.2)
            (p3.1, .ok p3.2)
      | _, _ => (h, .error "TypeError")

/-- Heap-level `addTask`: referential pre-check, then allocate the task, the
array copy with it appended, and a new matrix cell. -/
def addTaskH (h : Heap) (mRef : Nat) (input : CreateTaskInput) (newId : String) :
    Heap × Except String Nat :=
  match readMatrix h mRef with
  | none => (h, .error "TypeError")
  | some (gR, faR, tR) =>
      match readArr h faR, readArr h tR with
      | some elems, some elemsT =>
          if ¬ anyAreaRef h elems input.areaId then
            (h, .error s!"Focus area with id {input.areaId} not found")
          else
            let p1 := halloc h (.task (createTask input newId))
            let p2 := halloc p1.1 (.arr (elemsT ++ [p1.2]))
            let p3 := halloc p2.1 (.matrix gR faR p2.2)
            (p3.1, .ok p3.2)
      | _, _ => (h, .error "TypeError")

/-- Heap-level `updateTask`: `findIndex`, copy the array, allocate the updated
task (with the completion-date logic), write it into the copy, allocate a new
matrix cell. -/
def updateTaskH (h : Heap) (mRef : Nat) (taskId : String) (u : TaskUpdates) (now : Int) :
    Heap × Except String Nat :=
  match readMatrix h mRef with
  | none => (h, .error "TypeError")
  | some (gR, faR, tR) =>
      match readArr h tR with
      | none => (h, .error "TypeError")
      | some elemsT =>
          match findTaskRef h taskId elemsT 0 with
          | none => (h, .error s!"Task with id {taskId} not found")
          | some (i, existingTask) =>
              let p1 := halloc h (.arr elemsT)
              let p2 := halloc p1.1 (.task (updateTaskObj existingTask u now))
              let h3 := hset p2.1 p1.2 (.arr (elemsT.set i p2.2))
              let p4 := halloc h3 (.matrix gR faR p1.2)
              (p4.1, .ok p4.2)

/-- Heap-level `updateTaskStatus` wrapper. -/
def updateTaskStatusH (h : Heap) (mRef : Nat) (taskId : String) (status : TaskStatus)
    (now : Int) : Heap × Except String Nat :=
  updateTaskH h mRef taskId { title := none, description := none, status := some status } now

/-- Heap-level `deleteTask`. -/
def deleteTaskH (h : Heap) (mRef : Nat) (taskId : String) : Heap × Except String Nat :=
  match readMatrix h mRef with
  | none => (h, .error "TypeError")
  | some (gR, faR, tR) =>
      match readArr h tR with
      | none => (h, .error "TypeError")
      | some elemsT =>
          if ¬ anyTaskRef h elemsT taskId then
            (h, .error s!"Task with id {taskId} not found")
          else
            let p1 := halloc h (.arr (filterTasksIdNe h elemsT taskId))
            let p2 := halloc p1.1 (.matrix gR faR p1.2)
            (p2.1, .ok p2.2)

/-- The frame property: every cell that existed before the call still holds
the same value afterwards. -/
def hpreserves (h h2 : Heap) : Prop :=
  ∀ i, i < h.size → hget h2 i = hget h i

/-- Whether a call outcome is a normal return. -/
def MigOutcome.isOk : MigOutcome → Bool
  | .ok _ _ _ => true
  | .thrown _ _ => false

/-- A migration function that does not mutate the object passed to it (and,
when it returns its own argument, returns it unchanged) — the discipline the
spec phrase "transformations operate on a working copy, not in place"
demands of registered migrations. -/
def Migration.nonMutating (m : Migration) : Prop :=
  ∀ d, match m.run d with
    | .ok post ret retIsArg => post = d ∧ (retIsArg = true → ret = d)
    | .thrown post _ => post = d

/-- A raw payload with one task lacking a `priority` key. -/
def cexData : RawMatrix :=
  { goal := { id := "g1", title := "G", description := "D", createdDate := .valid 0 },
    focusAreas := [],
    tasks := [{ id := "t1", title := "T", description := "TD", areaId := "a1",
                status := "pending", priority := none, completedDate := none }] }

/-- The in-place body of part_007's `exampleMigration`:
`data.tasks = data.tasks.map(task => ({...task, priority: task.priority || 'medium'}))`
mutates `data` and then returns it. -/
def mutateTasks (d : RawMatrix) : RawMatrix :=
  { d with tasks := d.tasks.map (fun task =>
      { task with priority := some (jsOrElse task.priority "medium") }) }

/-- A registered migration in the style of `exampleMigration`: it mutates its
argument in place and returns the argument object itself. -/
def inPlaceMigration : Migration :=
  { fromVersion := "0.999.998", toVersion := "0.999.999",
    description := "Add priority field to tasks",
    run := fun d => .ok (mutateTasks d) (mutateTasks d) true }

/-- A migration whose function throws. -/
def throwingMigration : Migration :=
  { fromVersion := "0.999.999", toVersion := "1.0.0",
    description := "Always fails",
    run := fun d => .thrown d "boom" }

/-- An engine holding the in-place migration followed by the throwing one
(the complete sequential chain `0.999.998 -> 0.999.999 -> 1.0.0`). -/
def cexEngine : MigrationEngine :=
  ((MigrationEngine.mk []).register inPlaceMigration).register throwingMigration

/-- A stored envelope at version `0.999.998` holding `cexData`. -/
def cexStored : StoredRaw :=
  { version := "0.999.998", data := cexData, lastSaved := "2024-01-01T00:00:00.000Z" }

/-- A non-mutating migration covering the step `0.999.998 -> 0.999.999`. -/
def pureStepMigration : Migration :=
  { fromVersion := "0.999.998", toVersion := "0.999.999",
    description := "No-op step",
    run := fun d => .ok d d false }

/-- A non-mutating migration that throws on the step `0.999.999 -> 1.0.0`. -/
def pureThrowMigration : Migration :=
  { fromVersion := "0.999.999", toVersion := "1.0.0",
    description := "Failing step",
    run := fun d => .thrown d "kaput" }

/-- An engine whose registered migrations are all non-mutating but whose last
link throws. -/
def pureEngine : MigrationEngine :=
  ((MigrationEngine.mk []).register pureStepMigration).register pureThrowMigration

/-- A non-mutating migration for the single step `0.999.999 -> 1.0.0`. -/
def lastStepMigration : Migration :=
  { fromVersion := "0.999.999", toVersion := "1.0.0",
    description := "Final step",
    run := fun d => .ok d d true }

/-- An engine with the complete, succeeding chain `0.999.999 -> 1.0.0`. -/
def okEngine : MigrationEngine :=
  (MigrationEngine.mk []).register lastStepMigration

/-- A stored envelope one sequential step behind the current version. -/
def behindStored : StoredRaw :=
  { version := "0.999.999", data := cexData, lastSaved := "2024-01-01T00:00:00.000Z" }

/-- A stored envelope at a future version. -/
def futureStored : StoredRaw :=
  { version := "2.0.0", data := cexData, lastSaved := "2024-01-01T00:00:00.000Z" }

/-- The matrix with every task's `priority` key removed — what the older
storage variant's deserializer reconstructs. -/
def stripPriorities (m : MatrixData) : MatrixData :=
  { m with tasks := m.tasks.map (fun t => { t with priority := none }) }

/-- A raw payload whose single task carries a present but empty
`completedDate` string (`new Date('')` is an Invalid Date, yet `''` is
falsy). -/
def c6Data : RawMatrix :=
  { goal := { id := "g1", title := "G", description := "D", createdDate := .valid 0 },
    focusAreas := [],
    tasks := [{ id := "t1", title := "T", description := "TD", areaId := "a1",
                status := "pending", priority := none,
                completedDate := some (.invalid "") }] }

/-- What loading `c6Data` returns: the task parsed fine, its unparseable
`completedDate` silently dropped. -/
def c6Result : MatrixData :=
  { goal := { id := "g1", title := "G", description := "D", createdDate := 0 },
    focusAreas := [],
    tasks := [{ id := "t1", title := "T", description := "TD", areaId := "a1",
                status := .pending, priority := none, completedDate := none }] }

/-- A raw payload whose goal `createdDate` is an unparseable string. -/
def badGoalDateData : RawMatrix :=
  { goal := { id := "g1", title := "G", description := "D",
              createdDate := .invalid "garbage" },
    focusAreas := [],
    tasks := [] }

/-- A 4.2-million-character string (comfortably above the 4 MB ceiling). -/
def bigString : String := String.mk (List.replicate 4200000 'a')

/-- A matrix whose serialized JSON exceeds the 4 MB quota ceiling. -/
def bigMatrix : MatrixData :=
  { goal := { id := "g1", title := "G", description := bigString, createdDate := 0 },
    focusAreas := [],
    tasks := [] }

/-- The frame property of a heap-level CRUD call: the call leaves every
pre-existing cell unchanged, and when it returns normally the returned
reference is a freshly allocated object. -/
def frameOk (h : Heap) (p : Heap × Except String Nat) : Prop :=
  hpreserves h p.1 ∧ ∀ r, p.2 = .ok r → h.size ≤ r

/-! ## Helper lemmas -/

instance {ε α : Type} [DecidableEq ε] [DecidableEq α] : DecidableEq (Except ε α) := by
  intro a b
  cases a <;> cases b
  case error.error e1 e2 =>
    exact if h : e1 = e2 then .isTrue (by rw [h]) else .isFalse (by simpa using h)
  case error.ok e1 a2 => exact .isFalse (by simp)
  case ok.error a1 e2 => exact .isFalse (by simp)
  case ok.ok a1 a2 =>
    exact if h : a1 = a2 then .isTrue (by rw [h]) else .isFalse (by simpa using h)

theorem listModify_mem {f : α → α} {i : Nat} {l : List α} {x : α}
    (hx : x ∈ listModify f i l) : x ∈ l ∨ ∃ a, l.get? i = some a ∧ x = f a := by
  induction l generalizing i with
  | nil => simp [listModify] at hx
  | cons a as ih =>
      cases i with
      | zero =>
          simp only [listModify, List.mem_cons] at hx
          rcases hx with h | h
          · exact .inr ⟨a, by simp, h⟩
          · exact .inl (List.mem_cons_of_mem _ h)
      | succ j =>
          simp only [listModify, List.mem_cons] at hx
          rcases hx with h | h
          · exact .inl (h ▸ List.mem_cons_self _ _)
          · rcases ih h with h2 | ⟨b, hb, hxb⟩
            · exact .inl (List.mem_cons_of_mem _ h2)
            · exact .inr ⟨b, by simpa using hb, hxb⟩

theorem findIdx?_some_get {p : α → Bool} {l : List α} {i : Nat}
    (h : l.findIdx? p = some i) : ∃ a, l.get? i = some a ∧ p a = true := by
  induction l generalizing i with
  | nil => simp [List.findIdx?] at h
  | cons a as ih =>
      rw [List.findIdx?_cons] at h
      by_cases hp : p a
      · simp [hp] at h
        exact ⟨a, by simp [← h], hp⟩
      · simp [hp] at h
        rcases h with ⟨j, hj, hij⟩
        rcases ih hj with ⟨b, hb, hpb⟩
        exact ⟨b, by simpa [← hij] using hb, hpb⟩

/-! ## Concrete data used by witnesses and counterexamples -/

/-- A concrete goal. -/
def exampleGoal : Goal :=
  { id := "g1", title := "Goal", description := "Desc", createdDate := 0 }

/-- A concrete focus area. -/
def exampleArea : FocusArea :=
  { id := "a1", title := "Area one", description := "D1", goalId := "g1" }

/-- A second concrete focus area. -/
def exampleArea2 : FocusArea :=
  { id := "a2", title := "Area two", description := "D2", goalId := "g1" }

/-- A concrete completed task (with its completion date set). -/
def exampleCompletedTask : Task :=
  { id := "t1", title := "Task one", description := "TD1", areaId := "a1",
    status := .completed, priority := some "medium", completedDate := some 10 }

/-- A concrete pending task. -/
def examplePendingTask : Task :=
  { id := "t2", title := "Task two", description := "TD2", areaId := "a2",
    status := .pending, priority := some "low", completedDate := none }

/-- A concrete matrix satisfying the completed-date invariant. -/
def exampleMatrix : MatrixData :=
  { goal := exampleGoal, focusAreas := [exampleArea, exampleArea2],
    tasks := [exampleCompletedTask, examplePendingTask] }

/-- A helper area for the saturated matrix. -/
def wArea (i : String) : FocusArea :=
  { id := i, title := "Area " ++ i, description := "D", goalId := "g1" }

/-- A helper task (all in area `c1`) for the saturated matrix. -/
def wTask (i : String) : Task :=
  { id := i, title := "Task " ++ i, description := "TD", areaId := "c1",
    status := .pending, priority := some "medium", completedDate := none }

/-- A matrix with 8 focus areas whose area `c1` already holds 8 tasks. -/
def exampleFull : MatrixData :=
  { goal := exampleGoal,
    focusAreas := ["c1", "c2", "c3", "c4", "c5", "c6", "c7", "c8"].map wArea,
    tasks := ["u1", "u2", "u3", "u4", "u5", "u6", "u7", "u8"].map wTask }

/-- A concrete task input targeting the saturated area `c1`. -/
def exampleTaskInput : CreateTaskInput :=
  { title := "New task", description := "ND", areaId := "c1",
    status := .pending, priority := none }

/-- The update that only changes the title of the completed example task. -/
def titleOnlyUpdate : TaskUpdates :=
  { title := some "New title", description := none, status := none }

/-- The matrix `updateTask` actually returns on the title-only update: the
task keeps status Completed but its `completedDate` has been cleared. -/
def brokenMatrix : MatrixData :=
  { exampleMatrix with
    tasks := [{ exampleCompletedTask with title := "New title", completedDate := none },
              examplePendingTask] }

/-- A task input that creates an already-Completed task. -/
def completedTaskInput : CreateTaskInput :=
  { title := "Done already", description := "X", areaId := "a1",
    status := .completed, priority := none }

/-- The matrix `addTask` returns for `completedTaskInput`: the new task is
Completed with no `completedDate`. -/
def brokenMatrix2 : MatrixData :=
  { exampleMatrix with
    tasks := exampleMatrix.tasks ++ [createTask completedTaskInput "t3"] }

/-- The matrix `updateTaskStatus` returns when the completed example task is
set back to Pending (its `completedDate` is cleared). -/
def reopenedMatrix : MatrixData :=
  { exampleMatrix with
    tasks := [{ exampleCompletedTask with status := .pending, completedDate := none },
              examplePendingTask] }

/-! ## Claim theorems -/

/-- C5: for every MatrixData with a focus area `A`, `deleteFocusArea` at
`A.id` succeeds and returns the matrix with `A` removed, every task of `A`
removed, and the goal, the other areas and the other tasks unchanged (they
are exactly the filters keeping the non-matching entries); calling it with an
id matching no focus area throws. -/
theorem C5_deleteFocusArea_cascade (m : MatrixData) (A : FocusArea)
    (hA : A ∈ m.focusAreas) :
    (deleteFocusArea m A.id = .ok
        { m with
          focusAreas := m.focusAreas.filter (fun area => area.id ≠ A.id),
          tasks := m.tasks.filter (fun task => task.areaId ≠ A.id) } ∧
      (∀ a ∈ (deleteFocusArea m A.id).toOption.elim [] MatrixData.focusAreas, a.id ≠ A.id) ∧
      (∀ t ∈ (deleteFocusArea m A.id).toOption.elim [] MatrixData.tasks, t.areaId ≠ A.id)) ∧
    (∀ badId, (∀ a ∈ m.focusAreas, a.id ≠ badId) →
      deleteFocusArea m badId = .error s!"Focus area with id {badId} not found") := by
  have hany : m.focusAreas.any (fun area => area.id = A.id) = true := by
    simp only [List.any_eq_true, decide_eq_true_eq]
    exact ⟨A, hA, rfl⟩
  constructor
  · have hok : deleteFocusArea m A.id = .ok
        { m with
          focusAreas := m.focusAreas.filter (fun area => area.id ≠ A.id),
          tasks := m.tasks.filter (fun task => task.areaId ≠ A.id) } := by
      simp [deleteFocusArea, hany]
    refine ⟨hok, ?_, ?_⟩
    · intro a ha
      rw [hok] at ha
      simp only [Except.toOption, Option.elim] at ha
      have := List.of_mem_filter ha
      simpa using this
    · intro t ht
      rw [hok] at ht
      simp only [Except.toOption, Option.elim] at ht
      have := List.of_mem_filter ht
      simpa using this
  · intro badId hbad
    have : m.focusAreas.any (fun area => area.id = badId) = false := by
      simp only [List.any_eq_false, decide_eq_true_eq]
      intro a ha
      exact hbad a ha
    simp [deleteFocusArea, this]

/-- C5 witness at a concrete matrix. -/
theorem C5_witness :
    exampleArea ∈ exampleMatrix.focusAreas ∧
      deleteFocusArea exampleMatrix exampleArea.id = .ok
        { exampleMatrix with
          focusAreas := exampleMatrix.focusAreas.filter (fun area => area.id ≠ exampleArea.id),
          tasks := exampleMatrix.tasks.filter (fun task => task.areaId ≠ exampleArea.id) } :=
  ⟨by decide, (C5_deleteFocusArea_cascade exampleMatrix exampleArea (by decide)).1.1⟩



/-- C8: `validateTaskAddition` reports invalid as soon as the given area
already holds 8 tasks, and as soon as the matrix holds 64 tasks in total
(whatever the area); below both limits it reports valid with no errors. -/
theorem C8_validateTaskAddition_limits (m : MatrixData) (areaId : String) :
    ((m.tasks.filter (fun task => task.areaId = areaId)).length ≥ 8 →
      (validateTaskAddition m areaId).isValid = false) ∧
    (m.tasks.length ≥ 64 → (validateTaskAddition m areaId).isValid = false) ∧
    ((m.tasks.filter (fun task => task.areaId = areaId)).length < 8 →
      m.tasks.length < 64 →
      (validateTaskAddition m areaId).isValid = true ∧
        (validateTaskAddition m areaId).errors = []) := by
  refine ⟨?_, ?_, ?_⟩
  · intro h
    simp only [validateTaskAddition, MAX_TASKS_PER_AREA, MAX_TOTAL_TASKS]
    split_ifs <;> simp_all
  · intro h
    simp only [validateTaskAddition, MAX_TASKS_PER_AREA, MAX_TOTAL_TASKS]
    split_ifs <;> simp_all
  · intro h1 h2
    simp only [validateTaskAddition, MAX_TASKS_PER_AREA, MAX_TOTAL_TASKS]
    split_ifs <;> simp_all <;> omega

/-- C8 witness: in the saturated matrix, area `c1` holds 8 tasks and the
guard reports invalid. -/
theorem C8_witness :
    (exampleFull.tasks.filter (fun task => task.areaId = "c1")).length ≥ 8 ∧
      (validateTaskAddition exampleFull "c1").isValid = false :=
  ⟨by decide, (C8_validateTaskAddition_limits exampleFull "c1").1 (by decide)⟩

/-- C10: the CRUD write operations do not enforce the Harada cardinality
limits: `addFocusArea` always appends exactly one area (no throw, whatever
the current count), and `addTask` appends the created task whenever the
target area exists, with no count check; the limits live only in the
separate guard `validateFocusAreaAddition` (and `validateTaskAddition`,
settled in C8). -/
theorem C10_add_ops_unchecked (m : MatrixData) (ai : CreateFocusAreaInput)
    (ti : CreateTaskInput) (newAreaId newTaskId : String) :
    (addFocusArea m ai newAreaId).focusAreas = m.focusAreas ++ [createFocusArea ai newAreaId] ∧
    (addFocusArea m ai newAreaId).focusAreas.length = m.focusAreas.length + 1 ∧
    (8 ≤ m.focusAreas.length → (validateFocusAreaAddition m).isValid = false) ∧
    ((∃ a ∈ m.focusAreas, a.id = ti.areaId) →
      addTask m ti newTaskId = .ok { m with tasks := m.tasks ++ [createTask ti newTaskId] }) := by
  refine ⟨rfl, by simp [addFocusArea], ?_, ?_⟩
  · intro h
    simp only [validateFocusAreaAddition, MAX_FOCUS_AREAS]
    split_ifs <;> simp_all
  · intro h
    have hany : m.focusAreas.any (fun area => area.id = ti.areaId) = true := by
      simp only [List.any_eq_true, decide_eq_true_eq]
      exact h
    simp [addTask, hany]


/-- C10 witness: with 8 areas and 8 tasks already in `c1`, `addFocusArea`
still grows the area list and `addTask` still succeeds, while the guard
reports invalid. -/
theorem C10_witness :
    8 ≤ exampleFull.focusAreas.length ∧
    (validateFocusAreaAddition exampleFull).isValid = false ∧
    (∃ a ∈ exampleFull.focusAreas, a.id = exampleTaskInput.areaId) ∧
    addTask exampleFull exampleTaskInput "nt" = .ok
      { exampleFull with
        tasks := exampleFull.tasks ++ [createTask exampleTaskInput "nt"] } :=
  ⟨by decide,
   (C10_add_ops_unchecked exampleFull ⟨"t", "d", "g1"⟩ exampleTaskInput "na" "nt").2.2.1
     (by decide),
   by decide,
   (C10_add_ops_unchecked exampleFull ⟨"t", "d", "g1"⟩ exampleTaskInput "na" "nt").2.2.2
     (by decide)⟩

/-- Elementwise preservation of the completed-date invariant by the
`updateTask` body, valid when the update carries a status or the existing
task is not Completed (the excluded case is the one the counterexample
exhibits). -/
theorem updateTaskObj_inv (t : Task) (u : TaskUpdates) (now : Int)
    (h1 : t.status = .completed ↔ t.completedDate.isSome)
    (hc : u.status ≠ none ∨ t.status ≠ .completed) :
    ((updateTaskObj t u now).status = .completed ↔
      (updateTaskObj t u now).completedDate.isSome) := by
  rcases hu : u.status with _ | s
  · rcases hc with hc | hc
    · exact absurd hu hc
    · simp [updateTaskObj, hu, hc]
      simpa [hc] using h1
  · cases s with
    | completed =>
        by_cases hcd : t.completedDate = none
        · simp [updateTaskObj, hu, hcd]
        · simp [updateTaskObj, hu, hcd, Option.isSome_iff_ne_none]
    | pending =>
        by_cases hts : t.status = .completed
        · simp [updateTaskObj, hu, hts]
        · have hcd : t.completedDate = none := by
            rcases hcd : t.completedDate with _ | x
            · rfl
            · exact absurd (h1.mpr (by simp [hcd])) hts
          simp [updateTaskObj, hu, hts, hcd]
    | inProgress =>
        by_cases hts : t.status = .completed
        · simp [updateTaskObj, hu, hts]
        · have hcd : t.completedDate = none := by
            rcases hcd : t.completedDate with _ | x
            · rfl
            · exact absurd (h1.mpr (by simp [hcd])) hts
          simp [updateTaskObj, hu, hts, hcd]



/-- C1 counterexample: on a matrix satisfying the invariant, (a) `updateTask`
with an update that omits `status` clears the `completedDate` of a Completed
task (because `updates.status !== COMPLETED` also holds when `updates.status`
is absent), and (b) `addTask` with a Completed input status creates a
Completed task without a `completedDate`; both returned matrices violate the
invariant, refuting the claim that every CRUD operation preserves it. -/
theorem C1_counterexample :
    completedInvariant exampleMatrix ∧
    updateTask exampleMatrix "t1" titleOnlyUpdate 99 = .ok brokenMatrix ∧
    ¬ completedInvariant brokenMatrix ∧
    addTask exampleMatrix completedTaskInput "t3" = .ok brokenMatrix2 ∧
    ¬ completedInvariant brokenMatrix2 := by
  refine ⟨by decide, by decide, by decide, by decide, by decide⟩

/-- C1 (amended): every CRUD operation preserves the completed-date
invariant, except that `addTask` requires the input status not to be
Completed and `updateTask` requires the update to carry a status (or the
target task not to be Completed) — the two gaps forced by the
counterexample.  In addition, the `updateTask` body stamps `completedDate`
with the clock when the status is set to Completed and none was present, and
clears it when a Completed task's status is updated to something else. -/
theorem C1_crud_preserves_completed_invariant (m : MatrixData)
    (hInv : completedInvariant m) :
    (∀ goalId u m2, updateGoal m goalId u = .ok m2 → completedInvariant m2) ∧
    (∀ areaId u m2, updateFocusArea m areaId u = .ok m2 → completedInvariant m2) ∧
    (∀ input newId, completedInvariant (addFocusArea m input newId)) ∧
    (∀ areaId m2, deleteFocusArea m areaId = .ok m2 → completedInvariant m2) ∧
    (∀ input newId m2, input.status ≠ .completed →
      addTask m input newId = .ok m2 → completedInvariant m2) ∧
    (∀ taskId u now m2,
      (u.status ≠ none ∨ ∀ t ∈ m.tasks, t.id = taskId → t.status ≠ .completed) →
      updateTask m taskId u now = .ok m2 → completedInvariant m2) ∧
    (∀ taskId status now m2,
      updateTaskStatus m taskId status now = .ok m2 → completedInvariant m2) ∧
    (∀ taskId m2, deleteTask m taskId = .ok m2 → completedInvariant m2) ∧
    (∀ t u now, t.completedDate = none → u.status = some .completed →
      (updateTaskObj t u now).completedDate = some now) ∧
    (∀ t u now s, t.status = .completed → u.status = some s → s ≠ .completed →
      (updateTaskObj t u now).completedDate = none) := by
  have hUT : ∀ taskId u now m2,
      (u.status ≠ none ∨ ∀ t ∈ m.tasks, t.id = taskId → t.status ≠ .completed) →
      updateTask m taskId u now = .ok m2 → completedInvariant m2 := by
    intro taskId u now m2 hcond h
    simp only [updateTask] at h
    cases hidx : m.tasks.findIdx? (fun task => task.id = taskId) with
    | none => rw [hidx] at h; cases h
    | some i =>
        rw [hidx] at h
        simp only [Except.ok.injEq] at h
        subst h
        intro t2 ht2
        simp only at ht2
        rcases listModify_mem ht2 with hmem | ⟨a, ha, hfa⟩
        · exact hInv t2 hmem
        · rcases findIdx?_some_get hidx with ⟨a0, ha0, hpa0⟩
          rw [ha] at ha0
          injection ha0 with haa
          subst haa
          have hamem : a ∈ m.tasks := List.get?_mem ha
          have hid : a.id = taskId := by simpa using hpa0
          subst hfa
          refine updateTaskObj_inv a u now (hInv a hamem) ?_
          rcases hcond with hcond | hcond
          · exact .inl hcond
          · exact .inr (hcond a hamem hid)
  refine ⟨?_, ?_, ?_, ?_, ?_, hUT, ?_, ?_, ?_, ?_⟩
  · intro goalId u m2 h
    simp only [updateGoal] at h
    split_ifs at h
    simp only [Except.ok.injEq] at h
    subst h
    exact hInv
  · intro areaId u m2 h
    simp only [updateFocusArea] at h
    cases hidx : m.focusAreas.findIdx? (fun area => area.id = areaId) with
    | none => rw [hidx] at h; cases h
    | some i =>
        rw [hidx] at h
        simp only [Except.ok.injEq] at h
        subst h
        exact hInv
  · intro input newId
    exact hInv
  · intro areaId m2 h
    simp only [deleteFocusArea] at h
    split_ifs at h
    simp only [Except.ok.injEq] at h
    subst h
    intro t ht
    exact hInv t (List.mem_of_mem_filter ht)
  · intro input newId m2 hst h
    simp only [addTask] at h
    split_ifs at h
    simp only [Except.ok.injEq] at h
    subst h
    intro t ht
    simp only [List.mem_append, List.mem_singleton] at ht
    rcases ht with ht | ht
    · exact hInv t ht
    · subst ht
      simp [createTask, hst]
  · intro taskId status now m2 h
    exact hUT taskId _ now m2 (.inl (by simp)) h
  · intro taskId m2 h
    simp only [deleteTask] at h
    split_ifs at h
    simp only [Except.ok.injEq] at h
    subst h
    intro t ht
    exact hInv t (List.mem_of_mem_filter ht)
  · intro t u now hcd hus
    simp [updateTaskObj, hus, hcd]
  · intro t u now s hts hus hs
    simp [updateTaskObj, hus, hts, hs]


/-- C1 witness: the amended theorem applied to the concrete example matrix
and a concrete `updateTaskStatus` call. -/
theorem C1_witness :
    completedInvariant exampleMatrix ∧
    (updateTaskStatus exampleMatrix "t1" .pending 7 = .ok reopenedMatrix →
      completedInvariant reopenedMatrix) :=
  ⟨by decide,
   fun h =>
     (C1_crud_preserves_completed_invariant exampleMatrix (by decide)).2.2.2.2.2.2.1
       "t1" .pending 7 reopenedMatrix h⟩

theorem versionLt_flags {v w : String} (h : isLessThan v w = true) :
    isEqualVersion v w = false ∧ isGreaterThan v w = false := by
  unfold isLessThan at h
  unfold isEqualVersion isGreaterThan
  simp only [decide_eq_true_eq] at h
  constructor <;> simp <;> omega

theorem versionGt_flags {v w : String} (h : isGreaterThan v w = true) :
    isEqualVersion v w = false := by
  unfold isGreaterThan at h
  unfold isEqualVersion
  simp only [decide_eq_true_eq] at h
  simp
  omega

theorem applyMigrations_allOk {migs : List Migration}
    (hok : ∀ mig ∈ migs, ∀ d, (mig.run d).isOk = true) :
    ∀ cur fv al ap, ∃ fin fvOut apOut,
      applyMigrations migs cur fv al ap = .ok fin fvOut apOut := by
  induction migs with
  | nil => intro cur fv al ap; exact ⟨cur, fv, ap, rfl⟩
  | cons mig rest ih =>
      intro cur fv al ap
      have h1 := hok mig (List.mem_cons_self _ _) cur
      cases hrun : mig.run cur with
      | ok post ret ri =>
          simp only [applyMigrations, hrun]
          exact ih (fun m hm d => hok m (List.mem_cons_of_mem _ hm) d) ret _ _ _
      | thrown post msg =>
          rw [hrun] at h1
          simp [MigOutcome.isOk] at h1

theorem applyMigrations_nonmut {migs : List Migration}
    (hnm : ∀ mig ∈ migs, mig.nonMutating) :
    ∀ cur fv al ap, (al = true → fv = cur) →
      (∀ fin fvOut apOut,
        applyMigrations migs cur fv al ap = .ok fin fvOut apOut → fvOut = fv) ∧
      (∀ msg fvOut apOut,
        applyMigrations migs cur fv al ap = .failed msg fvOut apOut → fvOut = fv) := by
  induction migs with
  | nil =>
      intro cur fv al ap hal
      constructor
      · intro fin fvOut apOut h
        simp only [applyMigrations, ApplyOutcome.ok.injEq] at h
        exact h.2.1.symm
      · intro msg fvOut apOut h
        simp [applyMigrations] at h
  | cons mig rest ih =>
      intro cur fv al ap hal
      have hm := hnm mig (List.mem_cons_self _ _) cur
      cases hrun : mig.run cur with
      | ok post ret ri =>
          rw [hrun] at hm
          have hfv : (if al then post else fv) = fv := by
            cases al
            · simp
            · simp [hm.1, hal rfl]
          have hal2 : (al && ri) = true → fv = ret := by
            intro hand
            obtain ⟨hal', hri⟩ : al = true ∧ ri = true := by simpa using hand
            rw [hal hal', hm.2 hri]
          have := ih (fun m hm2 => hnm m (List.mem_cons_of_mem _ hm2)) ret fv (al && ri) (ap ++ [mig]) hal2
          constructor
          · intro fin fvOut apOut h
            simp only [applyMigrations, hrun, hfv] at h
            exact this.1 fin fvOut apOut h
          · intro msg fvOut apOut h
            simp only [applyMigrations, hrun, hfv] at h
            exact this.2 msg fvOut apOut h
      | thrown post msg0 =>
          rw [hrun] at hm
          have hfv : (if al then post else fv) = fv := by
            cases al
            · simp
            · simp [hm, hal rfl]
          constructor
          · intro fin fvOut apOut h
            simp [applyMigrations, hrun] at h
          · intro msg fvOut apOut h
            simp only [applyMigrations, hrun, hfv, ApplyOutcome.failed.injEq] at h
            exact h.2.1.symm

theorem getMigrationPath_mem {e : MigrationEngine} {b : String} :
    ∀ {fuel : Nat} {a : String} {migs : List Migration},
      getMigrationPath e a b fuel = .ok migs →
      ∀ mig ∈ migs, ∃ k, (k, mig) ∈ e.migrations := by
  intro fuel
  induction fuel with
  | zero => intro a migs h; simp [getMigrationPath] at h
  | succ fuel ih =>
      intro a migs h
      by_cases hlt : isLessThan a b = true
      · simp only [getMigrationPath, hlt, if_true] at h
        cases hk : e.getMig (migKey a (getNextVersion a)) with
        | none => simp [hk] at h
        | some mg =>
            simp only [hk] at h
            cases hrec : getMigrationPath e mg.toVersion b fuel with
            | error msg => simp [hrec, Except.map] at h
            | ok migs2 =>
                simp only [hrec, Except.map, Except.ok.injEq] at h
                subst h
                intro mig hmig
                rcases List.mem_cons.mp hmig with rfl | hmem
                · simp only [MigrationEngine.getMig, Option.map_eq_some'] at hk
                  rcases hk with ⟨pr, hfind, hsnd⟩
                  refine ⟨pr.1, ?_⟩
                  have := List.mem_of_find?_eq_some hfind
                  rwa [show pr = (pr.1, mig) from Prod.ext rfl hsnd] at this
                · exact ih hrec mig hmem
      · simp only [getMigrationPath] at h
        rw [if_neg hlt] at h
        simp only [Except.ok.injEq] at h
        subst h
        intro mig hmig
        cases hmig

/-- C4: `MigrationEngine.migrate` on an envelope behind the current schema
version, given a complete chain of registered (and succeeding)
transformations along the computed path, returns success with no errors and
the envelope stamped to the current version; on an envelope at a future
version, it always returns failure with an explicit error and leaves the
envelope (version and data) untouched. -/
theorem C4_migrate_version_monotonicity (e : MigrationEngine) (stored : StoredRaw)
    (fuel : Nat) :
    (∀ migs, isLessThan stored.version STORAGE_VERSION = true →
      getMigrationPath e stored.version STORAGE_VERSION fuel = .ok migs →
      (∀ mig ∈ migs, ∀ d, (mig.run d).isOk = true) →
      (e.migrate stored fuel).1.success = true ∧
      (e.migrate stored fuel).1.errors = [] ∧
      (e.migrate stored fuel).2.version = STORAGE_VERSION) ∧
    (isGreaterThan stored.version STORAGE_VERSION = true →
      (e.migrate stored fuel).1.success = false ∧
      (e.migrate stored fuel).1.errors ≠ [] ∧
      (e.migrate stored fuel).2 = stored) := by
  constructor
  · intro migs hlt hpath hok
    obtain ⟨heq, hgt⟩ := versionLt_flags hlt
    obtain ⟨fin, fvOut, apOut, happ⟩ := applyMigrations_allOk hok stored.data stored.data true []
    simp only [MigrationEngine.migrate, heq, hgt, hpath, happ, Bool.false_eq_true, if_false]
    simp [emptyResult]
  · intro hgt
    have heq : isEqualVersion stored.version STORAGE_VERSION = false := versionGt_flags hgt
    simp only [MigrationEngine.migrate, heq, hgt, Bool.false_eq_true, if_false, if_true]
    simp [emptyResult]

/-- C4 witness: a one-link chain `0.999.999 -> 1.0.0` migrates a behind
envelope to the current version with no errors, and a `2.0.0` envelope is
rejected unchanged. -/
theorem C4_witness :
    isLessThan behindStored.version STORAGE_VERSION = true ∧
    ((okEngine.migrate behindStored 3).1.success = true ∧
      (okEngine.migrate behindStored 3).1.errors = [] ∧
      (okEngine.migrate behindStored 3).2.version = STORAGE_VERSION) ∧
    isGreaterThan futureStored.version STORAGE_VERSION = true ∧
    ((okEngine.migrate futureStored 3).1.success = false ∧
      (okEngine.migrate futureStored 3).1.errors ≠ [] ∧
      (okEngine.migrate futureStored 3).2 = futureStored) := by
  refine ⟨by decide, ?_, by decide, ?_⟩
  · refine (C4_migrate_version_monotonicity okEngine behindStored 3).1
      [lastStepMigration] (by decide) rfl ?_
    intro mig hm d
    cases List.mem_singleton.mp hm
    rfl
  · exact (C4_migrate_version_monotonicity okEngine futureStored 3).2 (by decide)

/-- C3 counterexample: with the registered chain
`[inPlaceMigration, throwingMigration]` — the first written exactly in the
style of the source's own `exampleMigration`, mutating its argument in place
and returning it — `migrate` reports failure (the second transformation
throws) yet the envelope's `data` differs from its pre-call value: the
partial application of the first transformation is visible to the caller. -/
theorem C3_counterexample_mutation_visible :
    (cexEngine.migrate cexStored 5).1.success = false ∧
    (cexEngine.migrate cexStored 5).2.data ≠ cexStored.data := by
  exact ⟨by decide, by decide⟩

/-- C3 (amended): whenever `migrate` fails (in particular when a
transformation in the chain throws), the failure carries an explicit error
and — provided every registered transformation is non-mutating, i.e.
operates on a working copy instead of its argument — the envelope observed
by the caller is exactly the pre-call envelope (the engine itself assigns
`data`/`version` only after full success); and a thrown transformation
always yields a failed result carrying the error. -/
theorem C3_migrate_abort_keeps_envelope (e : MigrationEngine) (stored : StoredRaw) (fuel : Nat)
    (hnm : ∀ p ∈ e.migrations, p.2.nonMutating) :
    ((e.migrate stored fuel).1.success = false → (e.migrate stored fuel).1.errors ≠ []) ∧
    ((e.migrate stored fuel).1.success = false → (e.migrate stored fuel).2 = stored) ∧
    (∀ migs msg fv ap, getMigrationPath e stored.version STORAGE_VERSION fuel = .ok migs →
      applyMigrations migs stored.data stored.data true [] = .failed msg fv ap →
      isLessThan stored.version STORAGE_VERSION = true →
      (e.migrate stored fuel).1.success = false ∧
      (e.migrate stored fuel).1.errors = [msg]) := by
  have hmigs : ∀ migs, getMigrationPath e stored.version STORAGE_VERSION fuel = .ok migs →
      ∀ mig ∈ migs, mig.nonMutating := by
    intro migs hpath mig hm
    rcases getMigrationPath_mem hpath mig hm with ⟨k, hk⟩
    exact hnm (k, mig) hk
  cases heq : isEqualVersion stored.version STORAGE_VERSION with
  | true =>
      refine ⟨?_, ?_, ?_⟩
      · intro h
        simp [MigrationEngine.migrate, heq, emptyResult] at h
      · intro h
        simp [MigrationEngine.migrate, heq, emptyResult] at h
      · intro migs msg fv ap hpath happ hlt
        rcases versionLt_flags hlt with ⟨heq2, _⟩
        rw [heq] at heq2
        cases heq2
  | false =>
  cases hgt : isGreaterThan stored.version STORAGE_VERSION with
  | true =>
      refine ⟨?_, ?_, ?_⟩
      · intro _
        simp [MigrationEngine.migrate, heq, hgt, emptyResult]
      · intro _
        simp [MigrationEngine.migrate, heq, hgt, emptyResult]
      · intro migs msg fv ap hpath happ hlt
        rcases versionLt_flags hlt with ⟨_, hgt2⟩
        rw [hgt] at hgt2
        cases hgt2
  | false =>
  cases hpath : getMigrationPath e stored.version STORAGE_VERSION fuel with
  | error msg0 =>
      refine ⟨?_, ?_, ?_⟩
      · intro _
        simp [MigrationEngine.migrate, heq, hgt, hpath, emptyResult]
      · intro _
        simp [MigrationEngine.migrate, heq, hgt, hpath, emptyResult]
      · intro migs msg fv ap hpath2 happ hlt
        simp at hpath2
  | ok migs =>
      have hnmigs := hmigs migs hpath
      cases happ : applyMigrations migs stored.data stored.data true [] with
      | ok fin fvOut apOut =>
          refine ⟨?_, ?_, ?_⟩
          · intro h
            simp [MigrationEngine.migrate, heq, hgt, hpath, happ, emptyResult] at h
          · intro h
            simp [MigrationEngine.migrate, heq, hgt, hpath, happ, emptyResult] at h
          · intro migs2 msg fv ap hpath2 happ2 hlt
            injection hpath2 with h2
            subst h2
            rw [happ] at happ2
            simp at happ2
      | failed msg fvOut apOut =>
          have hfv : fvOut = stored.data :=
            (applyMigrations_nonmut hnmigs stored.data stored.data true []
              (fun _ => rfl)).2 msg fvOut apOut happ
          refine ⟨?_, ?_, ?_⟩
          · intro _
            simp [MigrationEngine.migrate, heq, hgt, hpath, happ, emptyResult]
          · intro _
            simp only [MigrationEngine.migrate, heq, hgt, hpath, happ,
              Bool.false_eq_true, if_false]
            rw [hfv]
          · intro migs2 msg2 fv ap hpath2 happ2 hlt
            injection hpath2 with h2
            subst h2
            rw [happ] at happ2
            injection happ2 with hmsg hfv2 hap
            subst hmsg
            simp [MigrationEngine.migrate, heq, hgt, hpath, happ, emptyResult]

/-- C3 witness: with only non-mutating registered transformations (one of
which throws), the failed migration leaves the envelope exactly as it was. -/
theorem C3_witness :
    (pureEngine.migrate cexStored 5).1.success = false ∧
    (pureEngine.migrate cexStored 5).2 = cexStored := by
  have hnm : ∀ p ∈ pureEngine.migrations, p.2.nonMutating := by
    have hlist : pureEngine.migrations =
        [("0.999.999->1.0.0", pureThrowMigration),
         ("0.999.998->0.999.999", pureStepMigration)] := rfl
    intro p hp
    rw [hlist] at hp
    rcases List.mem_cons.mp hp with rfl | hp2
    · intro d
      simp [pureThrowMigration, Migration.nonMutating]
    · rcases List.mem_singleton.mp hp2 with rfl
      intro d
      simp [pureStepMigration, Migration.nonMutating]
  exact ⟨by decide,
    (C3_migrate_abort_keeps_envelope pureEngine cexStored 5 hnm).2.1 (by decide)⟩

theorem mapAreas_roundtrip (l : List FocusArea) :
    (l.map toRawArea).map (fun area =>
      ({ id := area.id, title := area.title, description := area.description,
         goalId := area.goalId } : FocusArea)) = l := by
  induction l with
  | nil => rfl
  | cons a as ih => simp [toRawArea, ih]

theorem strToStatus_str (st : TaskStatus) : strToStatus st.str = some st := by
  cases st <;> rfl

theorem validateTasks_toRaw (ts : List Task) : ∀ idx,
    validateTasks idx (ts.map toRawTask) =
      .ok (ts.map (fun t => { t with priority := none })) := by
  induction ts with
  | nil => intro idx; rfl
  | cons t ts ih =>
      intro idx
      cases hcd : t.completedDate with
      | none =>
          simp [validateTasks, toRawTask, strToStatus_str, hcd, ih (idx + 1),
            Bind.bind, Except.bind, pure, Except.pure]
      | some x =>
          simp [validateTasks, toRawTask, strToStatus_str, hcd, RawDate.truthy,
            parseDate, ih (idx + 1), Bind.bind, Except.bind, pure, Except.pure]

theorem validateTasksFull_toRaw (ts : List Task)
    (hp : ∀ t ∈ ts, t.priority ≠ none ∧ t.priority ≠ some "") : ∀ idx,
    validateTasksFull idx (ts.map toRawTask) = .ok ts := by
  induction ts with
  | nil => intro idx; rfl
  | cons t ts ih =>
      intro idx
      have hpt := hp t (List.mem_cons_self _ _)
      have ihr := ih (fun t2 ht2 => hp t2 (List.mem_cons_of_mem _ ht2)) (idx + 1)
      obtain ⟨tid, ttitle, tdesc, tarea, tstat, tprio, tcd⟩ := t
      cases hq : tprio with
      | none => exact absurd (by simpa using hq) hpt.1
      | some p =>
          have hpne : p ≠ "" := by
            intro hpe
            exact hpt.2 (by simp [hq, hpe])
          have hjs : jsOrElse (some p) "medium" = p := by simp [jsOrElse, hpne]
          subst hq
          cases tcd with
          | none =>
              simp [validateTasksFull, toRawTask, strToStatus_str, ihr, hjs,
                Bind.bind, Except.bind, pure, Except.pure]
          | some x =>
              simp [validateTasksFull, toRawTask, strToStatus_str, RawDate.truthy,
                parseDate, ihr, hjs, Bind.bind, Except.bind, pure, Except.pure]

theorem validateStoredData_toRaw (m : MatrixData) :
    validateStoredData (toRaw m) = .ok (stripPriorities m) := by
  simp only [validateStoredData, toRaw, stripPriorities, parseDate,
    validateTasks_toRaw, Bind.bind, Except.bind, pure, Except.pure]
  rw [mapAreas_roundtrip]

theorem validateStoredDataFull_toRaw (m : MatrixData)
    (hp : ∀ t ∈ m.tasks, t.priority ≠ none ∧ t.priority ≠ some "") :
    validateStoredDataFull (toRaw m) = .ok m := by
  simp only [validateStoredDataFull, toRaw, parseDate,
    validateTasksFull_toRaw m.tasks hp, Bind.bind, Except.bind, pure, Except.pure]
  rw [mapAreas_roundtrip]

theorem deserialize_currentVersion (d : RawMatrix) (ls : String) :
    deserializeMatrixData { version := STORAGE_VERSION, data := d, lastSaved := ls } =
      validateStoredData d := by
  have h1 : (STORAGE_VERSION = "") = False := by simp [STORAGE_VERSION]
  have h2 : needsMigration { version := STORAGE_VERSION, data := d, lastSaved := ls } = false :=
    rfl
  simp [deserializeMatrixData, h1, h2, createBackwardCompatibilityLayer,
    Bind.bind, Except.bind, pure, Except.pure]

theorem deserializeFull_currentVersion (d : RawMatrix) (ls : String) :
    deserializeMatrixDataFull { version := STORAGE_VERSION, data := d, lastSaved := ls } =
      validateStoredDataFull d := by
  have h1 : (STORAGE_VERSION = "") = False := by simp [STORAGE_VERSION]
  have h2 : needsMigration { version := STORAGE_VERSION, data := d, lastSaved := ls } = false :=
    rfl
  simp [deserializeMatrixDataFull, h1, h2, createBackwardCompatibilityLayer,
    Bind.bind, Except.bind, pure, Except.pure]

/-- C2 counterexample: the example matrix carries a priority on every task,
but deserializing its serialization through the cited storage module does not
return it (the reconstructed tasks have no priority key), refuting structural
equality of the round trip. -/
theorem C2_counterexample_priority_dropped :
    exampleMatrix.tasks.all (fun t => t.priority.isSome) = true ∧
    deserializeMatrixData (serializeMatrixData exampleMatrix "2024-01-01T00:00:00.000Z") ≠
      .ok exampleMatrix :=
  ⟨by decide, by decide⟩

/-- C2 (amended): for every valid MatrixData (well-typed, with every task
carrying a nonempty priority), deserializing the result of serializing it
returns the matrix with every task's `priority` field removed and everything
else structurally equal, including the reconstructed dates; the part_009
storage variant, whose deserializer keeps priority, satisfies the full
round-trip `deserialize(serialize(m)) = m`. -/
theorem C2_roundtrip (m : MatrixData) (nowIso : String)
    (hp : ∀ t ∈ m.tasks, t.priority ≠ none ∧ t.priority ≠ some "") :
    deserializeMatrixData (serializeMatrixData m nowIso) = .ok (stripPriorities m) ∧
    deserializeMatrixDataFull (serializeMatrixData m nowIso) = .ok m := by
  constructor
  · rw [serializeMatrixData, deserialize_currentVersion, validateStoredData_toRaw]
  · rw [serializeMatrixData, deserializeFull_currentVersion, validateStoredDataFull_toRaw m hp]

/-- C2 witness: the round trips evaluated on the concrete example matrix. -/
theorem C2_witness :
    deserializeMatrixData (serializeMatrixData exampleMatrix "2024-01-01T00:00:00.000Z") =
      .ok (stripPriorities exampleMatrix) ∧
    deserializeMatrixDataFull (serializeMatrixData exampleMatrix "2024-01-01T00:00:00.000Z") =
      .ok exampleMatrix :=
  C2_roundtrip exampleMatrix "2024-01-01T00:00:00.000Z" (by decide)

theorem validateTasks_error_corruption : ∀ (idx : Nat) (ts : List RawTask) (e : StorageErr),
    validateTasks idx ts = .error e → ∃ msg, e = .corruption msg := by
  intro idx ts
  induction ts generalizing idx with
  | nil => intro e h; simp [validateTasks] at h
  | cons t ts ih =>
      intro e h
      simp only [validateTasks, Bind.bind, Except.bind, pure, Except.pure] at h
      cases hst : strToStatus t.status with
      | none =>
          simp only [hst, Except.error.injEq] at h
          exact ⟨_, h.symm⟩
      | some st =>
          simp only [hst] at h
          cases hcd : t.completedDate with
          | none =>
              simp only [hcd] at h
              cases hrest : validateTasks (idx + 1) ts with
              | error e2 =>
                  simp only [hrest, Except.error.injEq] at h
                  subst h
                  exact ih (idx + 1) e2 hrest
              | ok l => simp [hrest] at h
          | some cd =>
              simp only [hcd] at h
              by_cases htr : cd.truthy = true
              · rw [if_pos htr] at h
                cases hpd : parseDate cd with
                | error e2 =>
                    simp only [hpd, Bind.bind, Except.bind, Except.error.injEq] at h
                    subst h
                    cases cd with
                    | valid x => simp [parseDate] at hpd
                    | invalid s =>
                        simp only [parseDate, Except.error.injEq] at hpd
                        exact ⟨_, hpd.symm⟩
                | ok x =>
                    simp only [hpd, Bind.bind, Except.bind, pure, Except.pure] at h
                    cases hrest : validateTasks (idx + 1) ts with
                    | error e2 =>
                        simp only [hrest, Except.error.injEq] at h
                        subst h
                        exact ih (idx + 1) e2 hrest
                    | ok l => simp [hrest] at h
              · rw [if_neg htr] at h
                cases hrest : validateTasks (idx + 1) ts with
                | error e2 =>
                    simp only [hrest, Except.error.injEq] at h
                    subst h
                    exact ih (idx + 1) e2 hrest
                | ok l => simp [hrest] at h

theorem validateTasks_ok_conditions : ∀ (idx : Nat) (ts : List RawTask) (l : List Task),
    validateTasks idx ts = .ok l →
    ∀ t ∈ ts, strToStatus t.status ≠ none ∧
      (∀ s, t.completedDate = some (.invalid s) → s = "") := by
  intro idx ts
  induction ts generalizing idx with
  | nil => intro l h t ht; cases ht
  | cons t0 ts ih =>
      intro l h t ht
      simp only [validateTasks, Bind.bind, Except.bind, pure, Except.pure] at h
      cases hst : strToStatus t0.status with
      | none => simp [hst] at h
      | some st =>
          simp only [hst] at h
          have hnext : (∃ l2, validateTasks (idx + 1) ts = .ok l2) ∧
              (∀ s, t0.completedDate = some (.invalid s) → s = "") := by
            cases hcd : t0.completedDate with
            | none =>
                simp only [hcd] at h
                cases hr : validateTasks (idx + 1) ts with
                | error e2 => simp [hr] at h
                | ok l2 => exact ⟨⟨l2, rfl⟩, by simp [hcd]⟩
            | some cd =>
                simp only [hcd] at h
                by_cases htr : cd.truthy = true
                · rw [if_pos htr] at h
                  cases hpd : parseDate cd with
                  | error e2 => simp [hpd] at h
                  | ok x =>
                      simp only [hpd, Bind.bind, Except.bind, pure, Except.pure] at h
                      cases hr : validateTasks (idx + 1) ts with
                      | error e2 => simp [hr] at h
                      | ok l2 =>
                          refine ⟨⟨l2, rfl⟩, ?_⟩
                          intro s hs
                          injection hs with hs2
                          subst hs2
                          simp [parseDate] at hpd
                · rw [if_neg htr] at h
                  cases hr : validateTasks (idx + 1) ts with
                  | error e2 => simp [hr] at h
                  | ok l2 =>
                      refine ⟨⟨l2, rfl⟩, ?_⟩
                      intro s hs
                      injection hs with hs2
                      subst hs2
                      simp only [RawDate.truthy] at htr
                      simpa using htr
          rcases List.mem_cons.mp ht with rfl | hmem
          · exact ⟨by simp [hst], hnext.2⟩
          · rcases hnext.1 with ⟨l2, hr⟩
            exact ih (idx + 1) l2 hr t hmem

theorem validateStoredData_error_corruption (d : RawMatrix) (e : StorageErr)
    (h : validateStoredData d = .error e) : ∃ msg, e = .corruption msg := by
  simp only [validateStoredData, Bind.bind, Except.bind, pure, Except.pure] at h
  cases hpd : parseDate d.goal.createdDate with
  | error e2 =>
      simp only [hpd, Except.error.injEq] at h
      subst h
      cases hcd : d.goal.createdDate with
      | valid x => rw [hcd] at hpd; simp [parseDate] at hpd
      | invalid s =>
          rw [hcd] at hpd
          simp only [parseDate, Except.error.injEq] at hpd
          exact ⟨_, hpd.symm⟩
  | ok x =>
      simp only [hpd] at h
      cases ht : validateTasks 0 d.tasks with
      | error e2 =>
          simp only [ht, Except.error.injEq] at h
          subst h
          exact validateTasks_error_corruption 0 d.tasks e2 ht
      | ok l => simp [ht] at h

theorem validateStoredData_ok_conditions (d : RawMatrix) (m : MatrixData)
    (h : validateStoredData d = .ok m) :
    (∀ s, d.goal.createdDate ≠ .invalid s) ∧
    ∀ t ∈ d.tasks, strToStatus t.status ≠ none ∧
      (∀ s, t.completedDate = some (.invalid s) → s = "") := by
  simp only [validateStoredData, Bind.bind, Except.bind, pure, Except.pure] at h
  cases hpd : parseDate d.goal.createdDate with
  | error e2 => simp [hpd] at h
  | ok x =>
      simp only [hpd] at h
      constructor
      · intro s hcd
        rw [hcd] at hpd
        simp [parseDate] at hpd
      · cases ht : validateTasks 0 d.tasks with
        | error e2 => simp [ht] at h
        | ok l => exact validateTasks_ok_conditions 0 d.tasks l ht

/-- C6 counterexample: a payload whose task has a present `completedDate`
string that does not parse to a valid date (the empty string), yet loading
returns a matrix (the falsy value is skipped before parsing) instead of
raising `StorageCorruptionError`. -/
theorem C6_counterexample_empty_completedDate :
    c6Data.tasks.all (fun t => t.completedDate.isSome) = true ∧
    deserializeMatrixData { version := "1.0.0", data := c6Data, lastSaved := "ls" } =
      .ok c6Result :=
  ⟨by decide, by decide⟩

/-- C6 (amended): loading a payload at the current version raises
`StorageCorruptionError` whenever some task's status is outside
`pending` / `in-progress` / `completed`, whenever the goal's `createdDate`
does not parse, and whenever a present and nonempty task `completedDate`
string does not parse; an empty-string `completedDate`, although present and
unparseable, is treated as absent by the truthiness guard (the
counterexample's case). -/
theorem C6_corruption_detection (d : RawMatrix) (ls : String) :
    ((∃ t ∈ d.tasks, t.status ≠ "pending" ∧ t.status ≠ "in-progress" ∧
        t.status ≠ "completed") →
      ∃ msg, deserializeMatrixData { version := "1.0.0", data := d, lastSaved := ls } =
        .error (.corruption msg)) ∧
    (∀ s, d.goal.createdDate = .invalid s →
      deserializeMatrixData { version := "1.0.0", data := d, lastSaved := ls } =
        .error (.corruption ("Invalid date string: " ++ s))) ∧
    ((∃ t ∈ d.tasks, ∃ s, t.completedDate = some (.invalid s) ∧ s ≠ "") →
      ∃ msg, deserializeMatrixData { version := "1.0.0", data := d, lastSaved := ls } =
        .error (.corruption msg)) := by
  have hdes : deserializeMatrixData { version := "1.0.0", data := d, lastSaved := ls } =
      validateStoredData d := deserialize_currentVersion d ls
  refine ⟨?_, ?_, ?_⟩
  · rintro ⟨t, ht, h1, h2, h3⟩
    rw [hdes]
    cases hres : validateStoredData d with
    | ok m =>
        have := ((validateStoredData_ok_conditions d m hres).2 t ht).1
        exact absurd (by simp [strToStatus, h1, h2, h3]) this
    | error e =>
        rcases validateStoredData_error_corruption d e hres with ⟨msg, rfl⟩
        exact ⟨msg, rfl⟩
  · intro s hcd
    rw [hdes]
    simp [validateStoredData, hcd, parseDate, Bind.bind, Except.bind, pure, Except.pure,
      toString, String.append_empty]
  · rintro ⟨t, ht, s, hcd, hs⟩
    rw [hdes]
    cases hres : validateStoredData d with
    | ok m =>
        have := ((validateStoredData_ok_conditions d m hres).2 t ht).2 s hcd
        exact absurd this hs
    | error e =>
        rcases validateStoredData_error_corruption d e hres with ⟨msg, rfl⟩
        exact ⟨msg, rfl⟩

/-- C6 witness: the unparseable goal date of a concrete payload is reported
as `StorageCorruptionError` with the source's message. -/
theorem C6_witness :
    deserializeMatrixData { version := "1.0.0", data := badGoalDateData, lastSaved := "ls" } =
      .error (.corruption ("Invalid date string: " ++ "garbage")) :=
  (C6_corruption_detection badGoalDateData "ls").2.1 "garbage" rfl

theorem foldl_append_length {β : Type} (g : β → String) :
    ∀ (l : List β) (acc : String),
      (l.foldl (fun a b => a ++ g b) acc).length =
        acc.length + (l.map (fun b => (g b).length)).sum := by
  intro l
  induction l with
  | nil => intro acc; simp
  | cons b bs ih =>
      intro acc
      simp [List.foldl_cons, ih, String.length_append]
      omega

theorem map_length_sum_ge (f : Char → String) (hf : ∀ c, 1 ≤ (f c).length) :
    ∀ l : List Char, l.length ≤ (l.map (fun c => (f c).length)).sum := by
  intro l
  induction l with
  | nil => simp
  | cons c cs ih =>
      simp only [List.map_cons, List.sum_cons, List.length_cons]
      have := hf c
      omega

theorem strConcatMap_length_ge (f : Char → String) (hf : ∀ c, 1 ≤ (f c).length)
    (s : String) : s.length ≤ (strConcatMap f s).length := by
  have hq : (strConcatMap f s).length =
      "".length + (s.data.map (fun c => (f c).length)).sum :=
    foldl_append_length f s.data ""
  have hsum := map_length_sum_ge f hf s.data
  have hs : s.length = s.data.length := rfl
  have h0 : "".length = 0 := rfl
  rw [hq, h0, hs]
  omega

theorem escChar_length_ge (c : Char) : 1 ≤ (escChar c).length := by
  unfold escChar
  split_ifs <;> exact Nat.le_of_sub_eq_zero rfl

theorem jsonStr_length_ge (s : String) : s.length + 2 ≤ (jsonStr s).length := by
  have h := strConcatMap_length_ge escChar escChar_length_ge s
  simp only [jsonStr, String.length_append]
  change s.length + 2 ≤ 1 + (strConcatMap escChar s).length + 1
  omega

theorem utf8Bytes_ne_nil (c : Char) : utf8Bytes c ≠ [] := by
  simp only [utf8Bytes]
  split_ifs <;> simp

theorem pctEncode_length_ge (c : Char) : 1 ≤ (pctEncode c).length := by
  have h := foldl_append_length
    (fun b => "%" ++ String.mk [hexDigU (b / 16), hexDigU (b % 16)]) (utf8Bytes c) ""
  have hshape : pctEncode c =
      (utf8Bytes c).foldl
        (fun a b => a ++ ("%" ++ String.mk [hexDigU (b / 16), hexDigU (b % 16)])) "" := by
    simp [pctEncode, String.append_assoc]
  rw [hshape, h]
  cases hu : utf8Bytes c with
  | nil => exact absurd hu (utf8Bytes_ne_nil c)
  | cons b bs =>
      simp only [List.map_cons, List.sum_cons]
      have h3 : ("%" ++ String.mk [hexDigU (b / 16), hexDigU (b % 16)]).length = 3 := rfl
      have h0 : "".length = 0 := rfl
      rw [h3, h0]
      omega

theorem encodeURIComponent_length_ge (s : String) :
    s.length ≤ (encodeURIComponent s).length := by
  refine strConcatMap_length_ge _ ?_ s
  intro c
  by_cases hu : isUnreservedURI c = true
  · simp [hu, String.length]
  · simp only [hu]
    simpa using pctEncode_length_ge c

theorem btoaGo_length_ge : ∀ l : List Char, l.length ≤ (btoaGo l).length
  | [] => by simp [btoaGo]
  | [a] => by simp [btoaGo]
  | [a, b] => by simp [btoaGo]
  | a :: b :: c :: rest => by
      have ih := btoaGo_length_ge rest
      simp only [btoaGo, List.length_cons]
      omega

theorem compressData_length_ge (s : String) : s.length ≤ (compressData s).length := by
  unfold compressData
  cases hb : btoa (encodeURIComponent s) with
  | error e => exact le_refl _
  | ok c =>
      simp only [btoa] at hb
      split_ifs at hb
      simp only [Except.ok.injEq] at hb
      subst hb
      have h1 := encodeURIComponent_length_ge s
      have h2 := btoaGo_length_ge (encodeURIComponent s).data
      simp only [String.length] at *
      omega

/-- C7: whenever the serialized envelope's JSON exceeds the 4 MB ceiling,
both storage variants' `saveMatrixData` throw `StorageQuotaExceededError`
before writing anything: the returned store equals the pre-call store.  (In
the part_009 variant the compression attempt never changes the payload:
`btoa(encodeURIComponent(s))` is never shorter than `s`, so the 10%-win
condition is false.) -/
theorem C7_save_quota_no_write (store : Store) (m : MatrixData) (nowIso : String)
    (hbig : (stringifyStored (serializeMatrixData m nowIso)).length > 4 * 1024 * 1024) :
    saveMatrixData store m nowIso = (.error .quota, store) ∧
    saveMatrixDataFull store m nowIso = (.error .quota, store) := by
  constructor
  · simp only [saveMatrixData]
    rw [if_pos hbig]
  · simp only [saveMatrixDataFull]
    have h1m : (stringifyStored (serializeMatrixData m nowIso)).length > 1024 * 1024 := by
      omega
    rw [if_pos h1m]
    have hc := compressData_length_ge (stringifyStored (serializeMatrixData m nowIso))
    have hno : ¬(10 * (compressData (stringifyStored (serializeMatrixData m nowIso))).length <
        9 * (stringifyStored (serializeMatrixData m nowIso)).length) := by
      omega
    rw [if_neg hno]
    rw [if_pos hbig]

/-- C7 witness: a concrete matrix with a 4.2-million-character description
exceeds the ceiling, and both save paths reject it leaving the (empty) store
unchanged. -/
theorem C7_witness :
    (stringifyStored (serializeMatrixData bigMatrix "2024-01-01T00:00:00.000Z")).length >
      4 * 1024 * 1024 ∧
    saveMatrixData [] bigMatrix "2024-01-01T00:00:00.000Z" = (.error .quota, []) ∧
    saveMatrixDataFull [] bigMatrix "2024-01-01T00:00:00.000Z" = (.error .quota, []) := by
  have hlen : bigString.length = 4200000 := by
    show (List.replicate 4200000 'a').length = 4200000
    exact List.length_replicate 4200000 'a'
  have hjson := jsonStr_length_ge bigString
  have hbig : (stringifyStored (serializeMatrixData bigMatrix "2024-01-01T00:00:00.000Z")).length >
      4 * 1024 * 1024 := by
    simp only [stringifyStored, serializeMatrixData, toRaw, bigMatrix, matrixJson, goalJson,
      List.map_nil, String.length_append]
    omega
  exact ⟨hbig, (C7_save_quota_no_write [] bigMatrix "2024-01-01T00:00:00.000Z" hbig).1,
    (C7_save_quota_no_write [] bigMatrix "2024-01-01T00:00:00.000Z" hbig).2⟩

theorem size_append1 (h : Heap) (o : HObj) : (h ++ [o]).size = h.size + 1 := by
  simp [Heap.size]

theorem size_set_eq (h2 : Heap) (r : Nat) (o : HObj) : (hset h2 r o).size = h2.size := by
  simp [Heap.size, hset]

theorem hpreserves_refl (h : Heap) : hpreserves h h := fun _ _ => rfl

theorem hpreserves_alloc {h h2 : Heap} (hp : hpreserves h h2) (hle : h.size ≤ h2.size)
    (o : HObj) : hpreserves h (h2 ++ [o]) := by
  intro i hi
  have hlt : i < List.length h2 := lt_of_lt_of_le hi hle
  have hx : hget (h2 ++ [o]) i = hget h2 i := by
    simp only [hget, List.get?_eq_getElem?]
    exact List.getElem?_append_left hlt
  rw [hx]
  exact hp i hi

theorem hpreserves_set {h h2 : Heap} (hp : hpreserves h h2) {r : Nat} (hr : h.size ≤ r)
    (o : HObj) : hpreserves h (hset h2 r o) := by
  intro i hi
  have hne : r ≠ i := by omega
  have hx : hget (hset h2 r o) i = hget h2 i := by
    simp only [hget, hset, List.get?_eq_getElem?]
    exact List.getElem?_set_ne hne
  rw [hx]
  exact hp i hi

theorem updateGoalH_frame (h : Heap) (mRef : Nat) (goalId : String) (u : GoalUpdates) :
    frameOk h (updateGoalH h mRef goalId u) := by
  unfold updateGoalH
  cases hm : readMatrix h mRef with
  | none => exact ⟨hpreserves_refl h, fun r hr => Except.noConfusion hr⟩
  | some trip =>
      obtain ⟨gR, faR, tR⟩ := trip
      dsimp only
      cases hg : hget h gR with
      | none => exact ⟨hpreserves_refl h, fun r hr => Except.noConfusion hr⟩
      | some o =>
          cases o with
          | goal g =>
              dsimp only
              by_cases hid : g.id ≠ goalId
              · rw [if_pos hid]
                exact ⟨hpreserves_refl h, fun r hr => Except.noConfusion hr⟩
              · rw [if_neg hid]
                have h1 := hpreserves_alloc (hpreserves_refl h) (le_refl _)
                  (HObj.goal (applyGoalUpdates g u))
                refine ⟨hpreserves_alloc h1 ?_ _, ?_⟩
                · rw [size_append1]; omega
                · intro r hr
                  injection hr with hr2
                  rw [← hr2]
                  simp only [halloc, size_set_eq, size_append1]
                  omega
          | area a => exact ⟨hpreserves_refl h, fun r hr => Except.noConfusion hr⟩
          | task t => exact ⟨hpreserves_refl h, fun r hr => Except.noConfusion hr⟩
          | arr es => exact ⟨hpreserves_refl h, fun r hr => Except.noConfusion hr⟩
          | matrix x y z => exact ⟨hpreserves_refl h, fun r hr => Except.noConfusion hr⟩

theorem updateFocusAreaH_frame (h : Heap) (mRef : Nat) (areaId : String) (u : AreaUpdates) :
    frameOk h (updateFocusAreaH h mRef areaId u) := by
  unfold updateFocusAreaH
  cases hm : readMatrix h mRef with
  | none => exact ⟨hpreserves_refl h, fun r hr => Except.noConfusion hr⟩
  | some trip =>
      obtain ⟨gR, faR, tR⟩ := trip
      dsimp only
      cases ha : readArr h faR with
      | none => exact ⟨hpreserves_refl h, fun r hr => Except.noConfusion hr⟩
      | some elems =>
          dsimp only
          cases hf : findArea h areaId elems 0 with
          | none => exact ⟨hpreserves_refl h, fun r hr => Except.noConfusion hr⟩
          | some pr =>
              obtain ⟨i, a⟩ := pr
              dsimp only
              have h1 := hpreserves_alloc (hpreserves_refl h) (le_refl _) (HObj.arr elems)
              have h2 := hpreserves_alloc h1 (by rw [size_append1]; omega)
                (HObj.area (applyAreaUpdates a u))
              have h3 := hpreserves_set h2 (le_refl h.size)
                (HObj.arr (elems.set i (h ++ [HObj.arr elems]).size))
              refine ⟨hpreserves_alloc h3 ?_ _, ?_⟩
              · rw [size_set_eq, size_append1, size_append1]; omega
              · intro r hr
                injection hr with hr2
                rw [← hr2]
                simp only [halloc, size_set_eq, size_append1]
                omega

theorem addFocusAreaH_frame (h : Heap) (mRef : Nat) (input : CreateFocusAreaInput)
    (newId : String) : frameOk h (addFocusAreaH h mRef input newId) := by
  unfold addFocusAreaH
  cases hm : readMatrix h mRef with
  | none => exact ⟨hpreserves_refl h, fun r hr => Except.noConfusion hr⟩
  | some trip =>
      obtain ⟨gR, faR, tR⟩ := trip
      dsimp only
      cases ha : readArr h faR with
      | none => exact ⟨hpreserves_refl h, fun r hr => Except.noConfusion hr⟩
      | some elems =>
          dsimp only
          have h1 := hpreserves_alloc (hpreserves_refl h) (le_refl _)
            (HObj.area (createFocusArea input newId))
          have h2 := hpreserves_alloc h1 (by rw [size_append1]; omega)
            (HObj.arr (elems ++ [h.size]))
          refine ⟨hpreserves_alloc h2 ?_ _, ?_⟩
          · rw [size_append1, size_append1]; omega
          · intro r hr
            injection hr with hr2
            rw [← hr2]
            simp only [halloc, size_set_eq, size_append1]
            omega

theorem deleteFocusAreaH_frame (h : Heap) (mRef : Nat) (areaId : String) :
    frameOk h (deleteFocusAreaH h mRef areaId) := by
  unfold deleteFocusAreaH
  cases hm : readMatrix h mRef with
  | none => exact ⟨hpreserves_refl h, fun r hr => Except.noConfusion hr⟩
  | some trip =>
      obtain ⟨gR, faR, tR⟩ := trip
      dsimp only
      cases ha : readArr h faR with
      | none =>
          cases ht : readArr h tR with
          | none => exact ⟨hpreserves_refl h, fun r hr => Except.noConfusion hr⟩
          | some elemsT => exact ⟨hpreserves_refl h, fun r hr => Except.noConfusion hr⟩
      | some elems =>
          cases ht : readArr h tR with
          | none => exact ⟨hpreserves_refl h, fun r hr => Except.noConfusion hr⟩
          | some elemsT =>
              dsimp only
              by_cases hex : ¬ anyAreaRef h elems areaId = true
              · rw [if_pos hex]
                exact ⟨hpreserves_refl h, fun r hr => Except.noConfusion hr⟩
              · rw [if_neg hex]
                have h1 := hpreserves_alloc (hpreserves_refl h) (le_refl _)
                  (HObj.arr (filterAreasNe h elems areaId))
                have h2 := hpreserves_alloc h1 (by rw [size_append1]; omega)
                  (HObj.arr (filterTasksAreaNe h elemsT areaId))
                refine ⟨hpreserves_alloc h2 ?_ _, ?_⟩
                · rw [size_append1, size_append1]; omega
                · intro r hr
                  injection hr with hr2
                  rw [← hr2]
                  simp only [halloc, size_set_eq, size_append1]
                  omega

theorem addTaskH_frame (h : Heap) (mRef : Nat) (input : CreateTaskInput) (newId : String) :
    frameOk h (addTaskH h mRef input newId) := by
  unfold addTaskH
  cases hm : readMatrix h mRef with
  | none => exact ⟨hpreserves_refl h, fun r hr => Except.noConfusion hr⟩
  | some trip =>
      obtain ⟨gR, faR, tR⟩ := trip
      dsimp only
      cases ha : readArr h faR with
      | none =>
          cases ht : readArr h tR with
          | none => exact ⟨hpreserves_refl h, fun r hr => Except.noConfusion hr⟩
          | some elemsT => exact ⟨hpreserves_refl h, fun r hr => Except.noConfusion hr⟩
      | some elems =>
          cases ht : readArr h tR with
          | none => exact ⟨hpreserves_refl h, fun r hr => Except.noConfusion hr⟩
          | some elemsT =>
              dsimp only
              by_cases hex : ¬ anyAreaRef h elems input.areaId = true
              · rw [if_pos hex]
                exact ⟨hpreserves_refl h, fun r hr => Except.noConfusion hr⟩
              · rw [if_neg hex]
                have h1 := hpreserves_alloc (hpreserves_refl h) (le_refl _)
                  (HObj.task (createTask input newId))
                have h2 := hpreserves_alloc h1 (by rw [size_append1]; omega)
                  (HObj.arr (elemsT ++ [h.size]))
                refine ⟨hpreserves_alloc h2 ?_ _, ?_⟩
                · rw [size_append1, size_append1]; omega
                · intro r hr
                  injection hr with hr2
                  rw [← hr2]
                  simp only [halloc, size_set_eq, size_append1]
                  omega

theorem updateTaskH_frame (h : Heap) (mRef : Nat) (taskId : String) (u : TaskUpdates)
    (now : Int) : frameOk h (updateTaskH h mRef taskId u now) := by
  unfold updateTaskH
  cases hm : readMatrix h mRef with
  | none => exact ⟨hpreserves_refl h, fun r hr => Except.noConfusion hr⟩
  | some trip =>
      obtain ⟨gR, faR, tR⟩ := trip
      dsimp only
      cases ht : readArr h tR with
      | none => exact ⟨hpreserves_refl h, fun r hr => Except.noConfusion hr⟩
      | some elemsT =>
          dsimp only
          cases hf : findTaskRef h taskId elemsT 0 with
          | none => exact ⟨hpreserves_refl h, fun r hr => Except.noConfusion hr⟩
          | some pr =>
              obtain ⟨i, existingTask⟩ := pr
              dsimp only
              have h1 := hpreserves_alloc (hpreserves_refl h) (le_refl _) (HObj.arr elemsT)
              have h2 := hpreserves_alloc h1 (by rw [size_append1]; omega)
                (HObj.task (updateTaskObj existingTask u now))
              have h3 := hpreserves_set h2 (le_refl h.size)
                (HObj.arr (elemsT.set i (h ++ [HObj.arr elemsT]).size))
              refine ⟨hpreserves_alloc h3 ?_ _, ?_⟩
              · rw [size_set_eq, size_append1, size_append1]; omega
              · intro r hr
                injection hr with hr2
                rw [← hr2]
                simp only [halloc, size_set_eq, size_append1]
                omega

theorem deleteTaskH_frame (h : Heap) (mRef : Nat) (taskId : String) :
    frameOk h (deleteTaskH h mRef taskId) := by
  unfold deleteTaskH
  cases hm : readMatrix h mRef with
  | none => exact ⟨hpreserves_refl h, fun r hr => Except.noConfusion hr⟩
  | some trip =>
      obtain ⟨gR, faR, tR⟩ := trip
      dsimp only
      cases ht : readArr h tR with
      | none => exact ⟨hpreserves_refl h, fun r hr => Except.noConfusion hr⟩
      | some elemsT =>
          dsimp only
          by_cases hex : ¬ anyTaskRef h elemsT taskId = true
          · rw [if_pos hex]
            exact ⟨hpreserves_refl h, fun r hr => Except.noConfusion hr⟩
          · rw [if_neg hex]
            have h1 := hpreserves_alloc (hpreserves_refl h) (le_refl _)
              (HObj.arr (filterTasksIdNe h elemsT taskId))
            refine ⟨hpreserves_alloc h1 ?_ _, ?_⟩
            · rw [size_append1]; omega
            · intro r hr
              injection hr with hr2
              rw [← hr2]
              simp only [halloc, size_set_eq, size_append1]
              omega

/-- C9: every CRUD operation, traced over an explicit object heap exactly as
the source builds its result (object literals and array spreads allocate,
the only element writes target the freshly copied arrays), either returns a
reference to a freshly allocated MatrixData or throws, and in both cases
every pre-existing heap cell — in particular the caller's entire input
graph — holds exactly its pre-call value. -/
theorem C9_crud_operations_pure (h : Heap) (mRef : Nat) :
    (∀ goalId u, frameOk h (updateGoalH h mRef goalId u)) ∧
    (∀ areaId u, frameOk h (updateFocusAreaH h mRef areaId u)) ∧
    (∀ input newId, frameOk h (addFocusAreaH h mRef input newId)) ∧
    (∀ areaId, frameOk h (deleteFocusAreaH h mRef areaId)) ∧
    (∀ input newId, frameOk h (addTaskH h mRef input newId)) ∧
    (∀ taskId u now, frameOk h (updateTaskH h mRef taskId u now)) ∧
    (∀ taskId status now, frameOk h (updateTaskStatusH h mRef taskId status now)) ∧
    (∀ taskId, frameOk h (deleteTaskH h mRef taskId)) :=
  ⟨fun goalId u => updateGoalH_frame h mRef goalId u,
   fun areaId u => updateFocusAreaH_frame h mRef areaId u,
   fun input newId => addFocusAreaH_frame h mRef input newId,
   fun areaId => deleteFocusAreaH_frame h mRef areaId,
   fun input newId => addTaskH_frame h mRef input newId,
   fun taskId u now => updateTaskH_frame h mRef taskId u now,
   fun taskId status now =>
     updateTaskH_frame h mRef taskId { title := none, description := none, status := some status } now,
   fun taskId => deleteTaskH_frame h mRef taskId⟩

end Harada
